import Mathlib

/-!
Verification model of the documentation-pipeline content engine: the page-id
parser, the URL/out computer, the content catalog, the classifier, the
aggregate builder and the page composer's layout selection, embedded as
executable Lean definitions translated from the JavaScript sources.
-/

namespace Antora

/-! ## String and character-list utilities (JavaScript string operations) -/

/-- Joins a list of strings with a separator, mirroring Array.prototype.join. -/
def joinSep (sep : String) : List String → String
  | [] => ""
  | [s] => s
  | s :: rest => s ++ sep ++ joinSep sep rest

/-- Splits a character list at every occurrence of the separator character;
always returns at least one (possibly empty) segment, like String.prototype.split. -/
def splitChar (c : Char) : List Char → List (List Char)
  | [] => [[]]
  | x :: xs =>
    if x = c then [] :: splitChar c xs
    else
      match splitChar c xs with
      | [] => [[x]]
      | s :: ss => (x :: s) :: ss

/-- String.prototype.split with a one-character separator. -/
def splitOnChar (c : Char) (s : String) : List String :=
  (splitChar c s.data).map (fun cs => String.mk cs)

/-- Substring containment, mirroring a truthy `~haystack.indexOf(pattern)` test
for a non-empty pattern. -/
def containsSub (pat : List Char) : List Char → Bool
  | [] => false
  | x :: xs => pat.isPrefixOf (x :: xs) || containsSub pat xs

/-- Everything after the first occurrence of the character, if any. -/
def afterFirst (c : Char) : List Char → Option (List Char)
  | [] => none
  | x :: xs => if x = c then some xs else afterFirst c xs

/-- Models `s.substr(s.indexOf(c) + 1)`: the remainder after the first
occurrence of the character, or the whole string when it does not occur. -/
def afterCharOrSelf (c : Char) (s : String) : String :=
  match afterFirst c s.data with
  | some rest => String.mk rest
  | none => s

/-- JavaScript falsiness of an optional string (undefined or empty). -/
def strFalsy : Option String → Bool
  | none => true
  | some s => s = ""

/-- Stringification of an optional string inside a template literal:
undefined renders as the literal text "undefined". -/
def optStr : Option String → String
  | none => "undefined"
  | some s => s

/-! ## posix path helpers (`require('path').posix`) -/

/-- Normalization pass over path segments: drops empty and `.` segments and
resolves `..` against preceding segments (accumulator is reversed). -/
def normSegsAux : List String → List String → List String
  | [], acc => acc.reverse
  | s :: rest, acc =>
    if s = "" ∨ s = "." then normSegsAux rest acc
    else if s = ".." then
      match acc with
      | [] => normSegsAux rest [".."]
      | top :: tl => if top = ".." then normSegsAux rest (".." :: acc) else normSegsAux rest tl
    else normSegsAux rest (s :: acc)

/-- Splits a path into slash-separated segments. -/
def pathSegs (p : String) : List String := splitOnChar '/' p

/-- posix.join on relative paths: concatenates the non-empty parts with
slashes and normalizes; an empty result becomes ".". -/
def pjoin (parts : List String) : String :=
  match normSegsAux ((parts.map pathSegs).flatten) [] with
  | [] => "."
  | segs => joinSep "/" segs

/-- posix.dirname on the relative paths handled by the pipeline. -/
def pdirname (p : String) : String :=
  let segs := pathSegs p
  let segs := if segs.getLast? = some "" then segs.dropLast else segs
  match segs.dropLast with
  | [] => "."
  | init => joinSep "/" init

/-- posix.basename. -/
def pbasename (p : String) : String :=
  let segs := (pathSegs p).filter (fun s => ¬ s = "")
  (segs.getLast?).getD ""

/-- posix.extname: the suffix of the basename from its last dot, or "" when
the only dot is leading or the basename is all dots. -/
def pextname (p : String) : String :=
  let b := pbasename p
  if b = "." ∨ b = ".." then ""
  else
    match splitOnChar '.' b with
    | [] => ""
    | [_] => ""
    | parts =>
      if parts.length = 2 ∧ parts.head? = some "" then ""
      else "." ++ ((parts.getLast?).getD "")

/-- posix.basename with an extension argument: strips the extension when it is
a proper suffix of the basename. -/
def pbasenameExt (p ext : String) : String :=
  let b := pbasename p
  if ¬ ext = "" ∧ ¬ ext = b ∧ ext.data.isSuffixOf b.data then
    String.mk (b.data.take (b.data.length - ext.data.length))
  else b

/-- Drops the longest common prefix of two segment lists. -/
def dropCommon : List String → List String → List String × List String
  | a :: as, b :: bs => if a = b then dropCommon as bs else (a :: as, b :: bs)
  | as, bs => (as, bs)

/-- posix.relative on relative paths resolved against a common working
directory: climbs out of the remaining source segments and descends into the
remaining target segments. -/
def prelative (src dst : String) : String :=
  let f := normSegsAux (pathSegs src) []
  let t := normSegsAux (pathSegs dst) []
  let (fr, tr) := dropCommon f t
  joinSep "/" (fr.map (fun _ => "..") ++ tr)

/-! ## Page ID parsing (content-classifier/lib/util/parse-page-id.js) -/

/-- The essence of a parsed contextual page ID: the five identity coordinates,
with component, version and module possibly undefined. -/
structure SrcId where
  component : Option String
  version : Option String
  module : Option String
  family : String
  relative : String
deriving Repr, DecidableEq

/-- The src context object used to qualify a parsed page ID. -/
structure Ctx where
  component : Option String := none
  version : Option String := none
  module : Option String := none
deriving Repr, DecidableEq

/-- Strips one trailing ".adoc" from the page segment unless that would leave
it empty: PAGE_ID_RX captures the page lazily followed by an optional ".adoc". -/
def stripAdoc (p : String) : String :=
  if (".adoc".data).isSuffixOf p.data ∧ 5 < p.data.length then
    String.mk (p.data.take (p.data.length - 5))
  else p

/-- Matches the part of PAGE_ID_RX after the optional version: at most two
colon-separated qualifiers before a colon-free page segment. Returns
(component?, module?, page) or none when the regex cannot match. -/
def parseRest (rest : String) : Option (Option String × Option String × String) :=
  match splitOnChar ':' rest with
  | [p] => if p = "" then none else some (none, none, stripAdoc p)
  | [a, p] =>
    if p = "" then none
    else some (none, if a = "" then none else some a, stripAdoc p)
  | [a, b, p] =>
    if a = "" ∨ p = "" then none
    else some (some a, if b = "" then none else some b, stripAdoc p)
  | _ => none

/-- Matches the optional leading `version@` of PAGE_ID_RX: a non-empty run of
non-@ characters terminated by the first @. -/
def splitVersion (spec : String) : Option (String × String) :=
  match splitOnChar '@' spec with
  | v :: rest :: more =>
    if v = "" then none else some (v, joinSep "@" (rest :: more))
  | _ => none

/-- parsePageId: parses a contextual page ID spec against PAGE_ID_RX and
qualifies the result from the context. When the version@ reading of the spec
leaves an unmatchable remainder the regex backtracks and retries without a
version. A parsed component leaves the version unqualified and defaults the
module to ROOT; an absent component falls back to the context for component,
version and module. -/
def parsePageId (spec : String) (ctx : Ctx := {}) : Option SrcId :=
  let m : Option (Option String × Option String × Option String × String) :=
    match splitVersion spec with
    | some (v, rest) =>
      match parseRest rest with
      | some (c, mo, p) => some (some v, c, mo, p)
      | none => (parseRest spec).map (fun r => (none, r.1, r.2.1, r.2.2))
    | none => (parseRest spec).map (fun r => (none, r.1, r.2.1, r.2.2))
  match m with
  | none => none
  | some (v0, c0, m0, page) =>
    let relative := page ++ ".adoc"
    match c0 with
    | some c =>
      some { component := some c, version := v0, module := some (m0.getD "ROOT"),
             family := "page", relative := relative }
    | none =>
      some { component := ctx.component, version := v0 <|> ctx.version,
             module := m0 <|> ctx.module, family := "page", relative := relative }

/-! ## File model and URL/out computation (content-catalog.js) -/

/-- The src (identity and provenance) record of a virtual file. Fields that
JavaScript leaves undefined are modelled as the empty string when they are
never stringified, matching the call sites exercised by the catalog. -/
structure Src where
  component : String := ""
  version : String := ""
  module : String := ""
  family : String := ""
  relative : String := ""
  basename : String := ""
  stem : String := ""
  extname : String := ""
  mediaType : String := ""
  moduleRootPath : String := ""
deriving Repr, DecidableEq

/-- The out record computed for publishable files. -/
structure Out where
  dirname : String
  basename : String
  path : String
  moduleRootPath : String
  rootPath : String
deriving Repr, DecidableEq

/-- The pub record computed for publishable and navigation files. -/
structure Pub where
  url : String
  moduleRootPath : Option String := none
  rootPath : Option String := none
deriving Repr, DecidableEq

/-- A virtual file: path, mediaType, src, optional out and pub, optional alias
target (rel) and optional navigation index. -/
inductive File where
  | mk : (path : Option String) → (mediaType : Option String) → (src : Src) →
      (out : Option Out) → (pub : Option Pub) → (rel : Option File) →
      (nav : Option Nat) → File
deriving Repr

/-- The path field of a file. -/
def File.path : File → Option String
  | .mk p _ _ _ _ _ _ => p

/-- The mediaType field of a file. -/
def File.mediaType : File → Option String
  | .mk _ m _ _ _ _ _ => m

/-- The src record of a file. -/
def File.src : File → Src
  | .mk _ _ s _ _ _ _ => s

/-- The out record of a file, when computed. -/
def File.out : File → Option Out
  | .mk _ _ _ o _ _ _ => o

/-- The pub record of a file, when computed. -/
def File.pub : File → Option Pub
  | .mk _ _ _ _ p _ _ => p

/-- The alias target of a file, for alias-family files. -/
def File.rel : File → Option File
  | .mk _ _ _ _ _ r _ => r

/-- The navigation index of a file, for navigation-family files. -/
def File.nav : File → Option Nat
  | .mk _ _ _ _ _ _ n => n

/-- Replaces the out record of a file. -/
def File.withOut (f : File) (o : Option Out) : File :=
  match f with
  | .mk p m s _ pb r n => .mk p m s o pb r n

/-- Replaces the pub record of a file. -/
def File.withPub (f : File) (pb : Option Pub) : File :=
  match f with
  | .mk p m s o _ r n => .mk p m s o pb r n

/-- expandPageSrc: fills in family, basename, extname, stem and mediaType from
the relative path of a page-id src. -/
def expandPageSrc (src : Src) (family : String := "page") : Src :=
  { src with
    family := family,
    basename := pbasename src.relative,
    extname := pextname src.relative,
    stem := pbasenameExt src.relative (pextname src.relative),
    mediaType := "text/asciidoc" }

/-- computeOut: computes the output location of a file from its src, acting
family and the html URL extension style. -/
def computeOut (src : Src) (family : String) (htmlUrlExtensionStyle : String) : Out :=
  let component := src.component
  let version := if src.version = "master" then "" else src.version
  let module := if src.module = "ROOT" then "" else src.module
  let stem := src.stem
  let basename0 := if src.mediaType = "text/asciidoc" then stem ++ ".html" else src.basename
  let indexify := family = "page" ∧ ¬ stem = "index" ∧ htmlUrlExtensionStyle = "indexify"
  let basename := if indexify then "index.html" else basename0
  let indexifyPathSegment := if indexify then stem else ""
  let familyPathSegment :=
    if family = "image" then "_images"
    else if family = "attachment" then "_attachments"
    else ""
  let modulePath := pjoin [component, version, module]
  let dirname := pjoin [modulePath, familyPathSegment, pdirname src.relative, indexifyPathSegment]
  let path := pjoin [dirname, basename]
  let moduleRootPath := let r := prelative dirname modulePath; if r = "" then "." else r
  let rootPath := let r := prelative dirname ""; if r = "" then "." else r
  { dirname := dirname, basename := basename, path := path,
    moduleRootPath := moduleRootPath, rootPath := rootPath }

/-- computePub: computes the publish record from the src, optional out record
and acting family; for a page family the URL reshapes the last segment of the
out path according to the extension style. Accessing the out record when it is
absent (any non-navigation family without out) is a JavaScript TypeError,
modelled as none. -/
def computePub (src : Src) (outRec : Option Out) (family : String)
    (htmlUrlExtensionStyle : String) : Option Pub :=
  if family = "navigation" then
    let urlSegments := [src.component] ++
      (if src.version = "master" then [] else [src.version]) ++
      (if ¬ src.module = "" ∧ ¬ src.module = "ROOT" then [src.module] else [])
    let url := "/" ++ joinSep "/" urlSegments ++ "/"
    match outRec with
    | some o => some { url := url, moduleRootPath := some o.moduleRootPath,
                       rootPath := some o.rootPath }
    | none => some { url := url, moduleRootPath := some "." }
  else
    match outRec with
    | none => none
    | some o =>
      if family = "page" then
        let urlSegments := splitOnChar '/' o.path
        let lastSeg := (urlSegments.getLast?).getD ""
        let newLast :=
          if htmlUrlExtensionStyle = "drop" then
            if lastSeg = "index.html" then "" else String.mk (lastSeg.data.take (lastSeg.data.length - 5))
          else if htmlUrlExtensionStyle = "indexify" then ""
          else lastSeg
        let url := "/" ++ joinSep "/" (urlSegments.dropLast ++ [newLast])
        some { url := url, moduleRootPath := some o.moduleRootPath, rootPath := some o.rootPath }
      else
        some { url := "/" ++ o.path, moduleRootPath := some o.moduleRootPath,
               rootPath := some o.rootPath }

/-- The page src of the extension-style scenario. -/
def introSrc : Src :=
  { component := "docs", version := "1.0", module := "ROOT", family := "page",
    relative := "intro.adoc", basename := "intro.adoc", stem := "intro",
    extname := ".adoc", mediaType := "text/asciidoc" }

/-! ## Version comparison -/

/-- A version segment: a run of digits or an arbitrary text segment. -/
abbrev VSeg := Nat ⊕ String

/-- Code-unit comparison of characters, as JavaScript string comparison uses. -/
def charLtB (a b : Char) : Bool := a.toNat < b.toNat

/-- Lexicographic strict comparison of character lists. -/
def lexLtB : List Char → List Char → Bool
  | [], [] => false
  | [], _ :: _ => true
  | _ :: _, [] => false
  | a :: as, b :: bs => charLtB a b || (a = b && lexLtB as bs)

/-- JavaScript `a < b` on strings: lexicographic code-unit comparison. -/
def strLtB (a b : String) : Bool := lexLtB a.data b.data

/-- Three-way comparison of naturals. -/
def cmpNat (m n : Nat) : Ordering :=
  if m < n then .lt else if n < m then .gt else .eq

/-- Three-way lexicographic comparison of strings. -/
def cmpStr (a b : String) : Ordering :=
  if strLtB a b then .lt else if strLtB b a then .gt else .eq

/-- Comparison of version segments: numeric segments compare numerically,
text segments lexicographically, and numeric segments order before text. -/
def cmpSeg : VSeg → VSeg → Ordering
  | .inl m, .inl n => cmpNat m n
  | .inl _, .inr _ => .lt
  | .inr _, .inl _ => .gt
  | .inr s, .inr t => cmpStr s t

/-- Lexicographic comparison of segment lists, shorter lists first. -/
def cmpSegs : List VSeg → List VSeg → Ordering
  | [], [] => .eq
  | [], _ :: _ => .lt
  | _ :: _, [] => .gt
  | a :: as, b :: bs =>
    match cmpSeg a b with
    | .eq => cmpSegs as bs
    | o => o

/-- Decimal value of a digit run. -/
def digitsVal : List Char → Nat → Nat
  | [], acc => acc
  | c :: cs, acc => digitsVal cs (acc * 10 + (c.toNat - 48))

/-- Parses one dot-separated version segment. -/
def parseVSeg (s : String) : VSeg :=
  if ¬ s = "" ∧ s.data.all (fun c => c.isDigit) then .inl (digitsVal s.data 0) else .inr s

/-- The comparison key of a version string: its dot-separated segments. -/
def versionKey (v : String) : List VSeg := (splitOnChar '.' v).map parseVSeg

/-- Modelled from the spec: util/version-compare-desc.js is not under src/.
Per the spec's VersionCompare contract it is a pure, transitive and
antisymmetric total order over version strings, descending (returns a negative
number when the first argument is newer and should sort first), using a
semver-ish numeric scheme with lexicographic fallback for non-numeric
segments. -/
def versionCompare (a b : String) : Int :=
  match cmpSegs (versionKey b) (versionKey a) with
  | .lt => -1
  | .eq => 0
  | .gt => 1

/-! ## The content catalog (content-catalog.js) -/

/-- One entry of a component's version list. -/
structure VersionEntry where
  title : String
  version : String
  url : String
deriving Repr, DecidableEq

/-- A component record: name, title and url track the newest version. -/
structure Component where
  name : String
  title : String
  url : String
  versions : List VersionEntry
deriving Repr, DecidableEq

/-- The latestVersion getter: always the first entry of the versions list. -/
def Component.latestVersion (c : Component) : Option VersionEntry :=
  c.versions.head?

/-- Association-list lookup modelling JavaScript object property access. -/
def alookup {α : Type} (key : String) : List (String × α) → Option α
  | [] => none
  | (k, v) :: rest => if k = key then some v else alookup key rest

/-- Association-list update in place, modelling assignment to an existing
object property (the key keeps its position). -/
def aupdate {α : Type} (key : String) (value : α) : List (String × α) → List (String × α)
  | [] => [(key, value)]
  | (k, v) :: rest => if k = key then (k, value) :: rest else (k, v) :: aupdate key value rest

/-- The content catalog state: components and files keyed by name and by
identity string, and the configured html URL extension style. -/
structure Catalog where
  components : List (String × Component)
  files : List (String × File)
  htmlUrlExtensionStyle : String
deriving Repr

/-- The playbook fields consumed by the catalog and classifier. -/
structure PlaybookSite where
  startPage : Option String := none
deriving Repr, DecidableEq

/-- The urls category of the playbook. -/
structure PlaybookUrls where
  htmlExtensionStyle : Option String := none
deriving Repr, DecidableEq

/-- The playbook record (the consumed subset). -/
structure Playbook where
  site : PlaybookSite := {}
  urls : Option PlaybookUrls := none
deriving Repr, DecidableEq

/-- The ContentCatalog constructor: empty maps and the extension style from
the playbook, defaulting to "default". -/
def Catalog.init (playbook : Playbook) : Catalog :=
  { components := [], files := [],
    htmlUrlExtensionStyle := ((playbook.urls.bind PlaybookUrls.htmlExtensionStyle).getD "default") }

/-- generateId: the identity key `$family/version@component:module:relative`. -/
def generateId (family version component module relative : String) : String :=
  "$" ++ family ++ "/" ++ version ++ "@" ++ component ++ ":" ++ module ++ ":" ++ relative

/-- The identity key of a fully populated src record. -/
def Src.idOf (s : Src) : String :=
  generateId s.family s.version s.component s.module s.relative

/-- The identity key of a page-id src, stringifying undefined coordinates the
way a template literal does. -/
def SrcId.idOf (s : SrcId) : String :=
  generateId s.family (optStr s.version) (optStr s.component) (optStr s.module) s.relative

/-- getComponent. -/
def Catalog.getComponent (cat : Catalog) (name : String) : Option Component :=
  alookup name cat.components

/-- getComponent with a possibly undefined name (an undefined key never hits). -/
def Catalog.getComponentOpt (cat : Catalog) (name : Option String) : Option Component :=
  name.bind (fun n => alookup n cat.components)

/-- getById on the five identity coordinates of a page-id. -/
def Catalog.getById (cat : Catalog) (id : SrcId) : Option File :=
  alookup id.idOf cat.files

/-- The acting family of a file: for an alias, the family of its rel target;
undefined when an alias has no target (a JavaScript TypeError at use sites). -/
def File.actingFamily (f : File) : Option String :=
  if f.src.family = "alias" then (f.rel).map (fun r => r.src.family) else some f.src.family

/-- addFile: computes the identity key, rejects duplicates, computes out for
publishable files (acting family page, image or attachment with no path
segment of relative starting with an underscore) and pub for publishable or
navigation files, then stores the file. -/
def Catalog.addFile (cat : Catalog) (file : File) : Except String Catalog :=
  let id := file.src.idOf
  match alookup id cat.files with
  | some _ => .error ("Duplicate " ++ file.src.family ++ ": " ++ afterCharOrSelf '/' id)
  | none =>
    match file.actingFamily with
    | none => .error "TypeError: cannot read property of undefined rel"
    | some actingFamily =>
      let publishableByFamily :=
        (actingFamily = "page" ∨ actingFamily = "image" ∨ actingFamily = "attachment") ∧
          ¬ containsSub ['/', '_'] ("/" ++ file.src.relative).data
      let (publishable, file) :=
        match file.out with
        | some _ => (true, file)
        | none =>
          if publishableByFamily then
            (true, file.withOut (some (computeOut file.src actingFamily cat.htmlUrlExtensionStyle)))
          else (false, file)
      if file.pub = none ∧ (publishable ∨ actingFamily = "navigation") then
        match computePub file.src file.out actingFamily cat.htmlUrlExtensionStyle with
        | some pub => .ok { cat with files := cat.files ++ [(id, file.withPub (some pub))] }
        | none => .error "TypeError: cannot read path of undefined out"
      else .ok { cat with files := cat.files ++ [(id, file)] }

/-- Structural equality of files, modelling the JavaScript identity test on
the immutable file values handled by the catalog. -/
def File.beq : File → File → Bool
  | .mk p1 m1 s1 o1 b1 r1 n1, .mk p2 m2 s2 o2 b2 r2 n2 =>
    p1 = p2 && m1 = m2 && s1 = s2 && o1 = o2 && b1 = b2 && n1 = n2 &&
      (match r1, r2 with
       | none, none => true
       | some a, some b => File.beq a b
       | _, _ => false)

/-- resolvePage (util/resolve-page.js): parses the contextual spec, resolves a
missing version to the component's latest and looks the id up in the catalog.
A malformed spec is an error; an unknown component resolves to no file. -/
def Catalog.resolvePage (cat : Catalog) (spec : String) (ctx : Ctx := {}) :
    Except String (Option File) :=
  match parsePageId spec ctx with
  | none => .error "Invalid page ID syntax"
  | some id0 =>
    if strFalsy id0.version then
      match cat.getComponentOpt id0.component with
      | none => .ok none
      | some component =>
        match component.latestVersion with
        | none => .error "TypeError: cannot read version of undefined latestVersion"
        | some latest => .ok (cat.getById { id0 with version := some latest.version })
    else .ok (cat.getById id0)

/-- The findIndex/splice walk of addComponentVersion: raises on a duplicate
version string, inserts the entry before the first older candidate and reports
whether the insertion happened at the front. -/
def insertVersionEntry (name version : String) (entry : VersionEntry) :
    List VersionEntry → Except String (List VersionEntry × Bool)
  | [] => .ok ([entry], false)
  | c :: rest =>
    if c.version = version then
      .error ("Duplicate version detected for component " ++ name ++ ": " ++ version)
    else if versionCompare c.version version > 0 then
      .ok (entry :: c :: rest, true)
    else
      match insertVersionEntry name version entry rest with
      | .ok (l, _) => .ok (c :: l, false)
      | .error e => .error e

/-- The start-page URL resolution step of addComponentVersion: an explicit
spec that does not resolve is an error; when no spec was given and no index
page exists, the publish URL the index page would have is synthesized. -/
def Catalog.startPageUrl (cat : Catalog) (name version : String)
    (startPageSpec : Option String) : Except String String :=
  let effSpec := if strFalsy startPageSpec then "index.adoc" else startPageSpec.getD "index.adoc"
  match cat.resolvePage effSpec
      { component := some name, version := some version, module := some "ROOT" } with
  | .error e => .error e
  | .ok (some page) =>
    match page.pub with
    | some pub => .ok pub.url
    | none => .error "TypeError: cannot read url of undefined pub"
  | .ok none =>
    if ¬ strFalsy startPageSpec then
      .error ("Start page specified for " ++ version ++ "@" ++ name ++ " not found: " ++
        optStr startPageSpec)
    else
      let startPageSrc := expandPageSrc
        { component := name, version := version, module := "ROOT", relative := "index.adoc" }
      let startPageOut := computeOut startPageSrc startPageSrc.family cat.htmlUrlExtensionStyle
      match computePub startPageSrc (some startPageOut) startPageSrc.family
          cat.htmlUrlExtensionStyle with
      | some pub => .ok pub.url
      | none => .error "TypeError: cannot read url of undefined pub"

/-- The component-map update of addComponentVersion once the start-page URL
is known: create the component, or insert the version entry in descending
order, updating the component title and url when the new entry becomes the
newest. -/
def Catalog.insertComponentVersion (cat : Catalog) (name version title url : String) :
    Except String Catalog :=
  match alookup name cat.components with
  | some component =>
    match insertVersionEntry name version
        { title := title, version := version, url := url } component.versions with
    | .error e => .error e
    | .ok (versions, atFront) =>
      let component :=
        if atFront then { component with title := title, url := url, versions := versions }
        else { component with versions := versions }
      .ok { cat with components := aupdate name component cat.components }
  | none =>
    .ok { cat with components := cat.components ++
      [(name, { name := name, title := title, url := url,
                versions := [{ title := title, version := version, url := url }] })] }

/-- addComponentVersion: resolves the start page URL, then records the
component version. -/
def Catalog.addComponentVersion (cat : Catalog) (name version title : String)
    (startPageSpec : Option String := none) : Except String Catalog :=
  match cat.startPageUrl name version startPageSpec with
  | .error e => .error e
  | .ok url => cat.insertComponentVersion name version title url

/-- Converts a page-id src into a full src record, stringifying undefined
coordinates the way property copies of undefined behave at the exercised call
sites (all coordinates are defined there). -/
def srcOfId (s : SrcId) : Src :=
  { component := optStr s.component, version := optStr s.version, module := optStr s.module,
    family := s.family, relative := s.relative }

/-- The tail of registerPageAlias once the version is fixed: an existing file
under the alias id is a conflict (self-reference has its own message);
otherwise the alias file is created, added and returned (with the out and pub
added by addFile). -/
def Catalog.registerPageAliasTail (cat : Catalog) (src0 : SrcId) (targetPage : File) :
    Except String (Option File × Catalog) :=
  match cat.getById src0 with
  | some existingPage =>
    let qualifiedSpec := afterCharOrSelf '/' existingPage.src.idOf
    if File.beq existingPage targetPage then
      .error ("Page alias cannot reference itself: " ++ qualifiedSpec)
    else
      .error ("Page alias cannot reference an existing page: " ++ qualifiedSpec)
  | none =>
    let src := expandPageSrc (srcOfId src0) "alias"
    let file := File.mk targetPage.path (some src.mediaType) src none none (some targetPage) none
    match cat.addFile file with
    | .ok cat2 => .ok ((cat2.files.getLast?).map Prod.snd, cat2)
    | .error e => .error e

/-- registerPageAlias: parses the alias spec in the target's context; an
unparseable spec, an unknown component or an explicit version that is not
registered for the component all return undefined without touching the
catalog; a missing version defaults to the component's latest. -/
def Catalog.registerPageAlias (cat : Catalog) (aliasSpec : String) (targetPage : File) :
    Except String (Option File × Catalog) :=
  match parsePageId aliasSpec
      { component := some targetPage.src.component, version := some targetPage.src.version,
        module := some targetPage.src.module } with
  | none => .ok (none, cat)
  | some src0 =>
    match cat.getComponentOpt src0.component with
    | none => .ok (none, cat)
    | some component =>
      if ¬ strFalsy src0.version then
        if component.versions.any (fun c => c.version = optStr src0.version) then
          cat.registerPageAliasTail src0 targetPage
        else .ok (none, cat)
      else
        match component.latestVersion with
        | none => .error "TypeError: cannot read version of undefined latestVersion"
        | some latest => cat.registerPageAliasTail { src0 with version := some latest.version } targetPage

/-- Modelled from the spec: constants.js (START_PAGE_ID) is not under src/.
The spec's canonical site start page is the page at the site root, whose
version "master", module "ROOT" and empty component are all elided from its
URL, with relative index.adoc. -/
def START_PAGE_ID : SrcId :=
  { component := some "", version := some "master", module := some "ROOT",
    family := "page", relative := "index.adoc" }

/-- getSiteStartPage: looks up the site start page, then its alias, and
dereferences one level of alias. -/
def Catalog.getSiteStartPage (cat : Catalog) : Option File :=
  let page :=
    match cat.getById START_PAGE_ID with
    | some p => some p
    | none => cat.getById { START_PAGE_ID with family := "alias" }
  match page with
  | none => none
  | some page => if page.src.family = "alias" then page.rel else some page

/-! ## Content classification (classify-content.js) -/

/-- Replaces the src record of a file. -/
def File.withSrc (f : File) (s : Src) : File :=
  match f with
  | .mk p m _ o pb r n => .mk p m s o pb r n

/-- Sets the navigation index of a file. -/
def File.withNav (f : File) (i : Nat) : File :=
  match f with
  | .mk p m s o pb r _ => .mk p m s o pb r (some i)

/-- calculateRootPath: the depth expressed as a dot-dot chain, or ".". -/
def calculateRootPath (depth : Nat) : String :=
  if depth = 0 then "." else joinSep "/" (List.replicate depth "..")

/-- getNavInfo: the index of the file path in the component's ordered list of
navigation files, when registered. -/
def getNavInfo (filepath : String) (nav : List String) : Option Nat :=
  nav.indexOf? filepath

/-- allocateSrc: assigns family, module, relative and moduleRootPath to a raw
file from its in-repo path (or from its navigation registration), returning
the classified file or none when the file is to be discarded. -/
def allocateSrc (file : File) (component version : String)
    (nav : Option (List String)) : Option File :=
  let filepath := (file.path).getD ""
  let pathSegments := splitOnChar '/' filepath
  let finish : File → File := fun f =>
    f.withSrc { f.src with component := component, version := version }
  match nav.bind (fun n => getNavInfo filepath n) with
  | some index =>
    let f := file.withNav index
    if pathSegments.head? = some "modules" ∧ 2 < pathSegments.length then
      some (finish (f.withSrc { f.src with
        family := "navigation",
        module := (pathSegments.get? 1).getD "",
        relative := joinSep "/" (pathSegments.drop 2),
        moduleRootPath := calculateRootPath (pathSegments.length - 3) }))
    else
      some (finish (f.withSrc { f.src with family := "navigation", relative := filepath }))
  | none =>
    if pathSegments.head? = some "modules" then
      let assigned : Option (String × String) :=
        if pathSegments.get? 2 = some "pages" then
          if pathSegments.get? 3 = some "_partials" then
            some ("partial", joinSep "/" (pathSegments.drop 4))
          else if file.src.mediaType = "text/asciidoc" then
            some ("page", joinSep "/" (pathSegments.drop 3))
          else none
        else if pathSegments.get? 2 = some "assets" then
          if pathSegments.get? 3 = some "images" then
            some ("image", joinSep "/" (pathSegments.drop 4))
          else if pathSegments.get? 3 = some "attachments" then
            some ("attachment", joinSep "/" (pathSegments.drop 4))
          else none
        else if pathSegments.get? 2 = some "examples" then
          some ("example", joinSep "/" (pathSegments.drop 3))
        else none
      match assigned with
      | some (family, relative) =>
        some (finish (file.withSrc { file.src with
          family := family, relative := relative,
          module := (pathSegments.get? 1).getD "",
          moduleRootPath := calculateRootPath (pathSegments.length - 3) }))
      | none => none
    else none

/-- One component-version bundle of the aggregate consumed by the classifier. -/
structure Bundle where
  name : String
  version : String
  title : String := ""
  start_page : Option String := none
  nav : Option (List String) := none
  files : List File := []

/-- Adds the classified files of one bundle to the catalog, discarding files
allocateSrc rejects. -/
def Catalog.addBundleFiles (cat : Catalog) (component version : String)
    (nav : Option (List String)) : List File → Except String Catalog
  | [] => .ok cat
  | f :: fs =>
    match allocateSrc f component version nav with
    | some f2 =>
      match cat.addFile f2 with
      | .ok cat2 => cat2.addBundleFiles component version nav fs
      | .error e => .error e
    | none => cat.addBundleFiles component version nav fs

/-- One step of the classifyContent reducer: the bundle's files, then its
component version. -/
def classifyStep (cat : Catalog) (b : Bundle) : Except String Catalog :=
  match cat.addBundleFiles b.name b.version b.nav b.files with
  | .ok cat2 => cat2.addComponentVersion b.name b.version b.title b.start_page
  | .error e => .error e

/-- The classifyContent reducer over the aggregate. -/
def classifyFold (cat : Catalog) : List Bundle → Except String Catalog
  | [] => .ok cat
  | b :: rest =>
    match classifyStep cat b with
    | .ok cat2 => classifyFold cat2 rest
    | .error e => .error e

/-- registerSiteStartPage: resolves the playbook's site start page and stores
an alias to it under the site start-page id. -/
def registerSiteStartPage (playbook : Playbook) (cat : Catalog) : Except String Catalog :=
  if strFalsy playbook.site.startPage then .ok cat
  else
    match cat.resolvePage ((playbook.site.startPage).getD "") {} with
    | .error e => .error e
    | .ok none =>
      .error ("Specified start page for site not found: " ++ optStr playbook.site.startPage)
    | .ok (some rel) =>
      let base := srcOfId START_PAGE_ID
      let src : Src := { base with
        family := "alias", basename := "index.adoc",
        stem := "index", mediaType := "text/asciidoc" }
      cat.addFile (File.mk none none src none none (some rel) none)

/-- classifyContent: reduces the aggregate into a fresh catalog, then
registers the site start page. -/
def classifyContent (playbook : Playbook) (aggregate : List Bundle) : Except String Catalog :=
  match classifyFold (Catalog.init playbook) aggregate with
  | .ok cat => registerSiteStartPage playbook cat
  | .error e => .error e

/-! ## Aggregate building (content aggregator, buildAggregate) -/

/-- One component-version record produced per matched ref: the component
descriptor fields plus the files collected from that ref, abstracted as opaque
tokens (buildAggregate never inspects file contents). -/
structure CVRecord where
  name : String
  version : String
  title : Option String := none
  start_page : Option String := none
  nav : Option (List String) := none
  files : List String := []
deriving Repr, DecidableEq

/-- The groupBy key `${version}@${name}`. -/
def CVRecord.key (r : CVRecord) : String := r.version ++ "@" ++ r.name

/-- lodash assign of one descriptor record (with files omitted) onto an
accumulator: every field present on the right overwrites. -/
def mergeScalars (a b : CVRecord) : CVRecord :=
  { name := b.name, version := b.version,
    title := b.title <|> a.title,
    start_page := b.start_page <|> a.start_page,
    nav := b.nav <|> a.nav, files := [] }

/-- The empty accumulator of the reduce inside buildAggregate. -/
def emptyCV : CVRecord := { name := "", version := "" }

/-- The merged record of one `version@name` group: scalar fields by
last-write-wins, files concatenated in group order. -/
def mergeGroup (group : List CVRecord) : CVRecord :=
  let scalars := group.foldl mergeScalars emptyCV
  { scalars with files := (group.map CVRecord.files).flatten }

/-- The keys of a lodash groupBy result in first-occurrence order (the keys
all contain an @ so none is an array index). -/
def dedupKeys : List String → List String → List String
  | [], acc => acc.reverse
  | k :: rest, acc => if k ∈ acc then dedupKeys rest acc else dedupKeys rest (k :: acc)

/-- The lodash sortBy ordering on ['name', 'version']: ascending by name then
by version, both as plain string comparisons; ties keep insertion order
(stable sort). -/
def aggLE (a b : CVRecord) : Bool :=
  strLtB a.name b.name || (a.name = b.name && !(strLtB b.version a.version))

/-- buildAggregate: flattens the per-url, per-source lists of
component-version records two levels, groups them by `version@name` in
first-occurrence order, merges each group and sorts the merged records by
(name, version) with lodash's stable ascending string comparison.
One insertion step of that stable sort. -/
def insertCV (a : CVRecord) : List CVRecord → List CVRecord
  | [] => [a]
  | b :: t => if aggLE a b then a :: b :: t else b :: insertCV a t

/-- lodash's stable sort by the comparison: insertion keeps a later record
after an equal earlier one. -/
def sortCV : List CVRecord → List CVRecord
  | [] => []
  | a :: t => insertCV a (sortCV t)

def buildAggregate (componentVersions : List (List (List CVRecord))) : List CVRecord :=
  let flat := (componentVersions.map List.flatten).flatten
  let keys := dedupKeys (flat.map CVRecord.key) []
  let merged := keys.map (fun k => mergeGroup (flat.filter (fun r => CVRecord.key r = k)))
  sortCV merged

/-! ## Page composition (create-page-composer.js, layout selection) -/

/-- The page-prefixed attributes of a document with the prefix stripped
(buildPageUiModel): sequential object assignment makes the last duplicate
win. -/
def pageAttributes (attributes : List (String × String)) : List (String × String) :=
  (attributes.filter (fun kv => ("page-".data).isPrefixOf kv.1.data)).map
    (fun kv => (String.mk (kv.1.data.drop 5), kv.2))

/-- Object property read after sequential assignments: the last write wins. -/
def lastAssigned (key : String) (l : List (String × String)) : Option String :=
  (l.reverse.find? (fun kv => kv.1 = key)).map Prod.snd

/-- The layout field of the page UI model: the page-layout attribute when
truthy, else the site default layout. -/
def pageLayout (attributes : List (String × String)) (siteDefaultLayout : String) : String :=
  match lastAssigned "layout" (pageAttributes attributes) with
  | some v => if v = "" then siteDefaultLayout else v
  | none => siteDefaultLayout

/-- The layout selection of composePage: keep a layout that has a template; a
missing "404" layout fails directly; otherwise fall back to the site default
layout unless it equals the request or is itself missing. -/
def selectLayout (layouts : List String) (layout : String) (defaultLayout : String) :
    Except String String :=
  if layouts.contains layout then .ok layout
  else if layout = "404" then .error "404 layout not found"
  else if defaultLayout = layout then .error (layout ++ " layout not found")
  else if ¬ layouts.contains defaultLayout then
    .error ("Neither " ++ layout ++ " layout or fallback " ++ defaultLayout ++ " layout found")
  else .ok defaultLayout

/-- composePage restricted to its layout decision, over the set of layout
names that have templates. -/
def composePageLayout (layouts : List String) (attributes : List (String × String))
    (siteDefaultLayout : String) : Except String String :=
  selectLayout layouts (pageLayout attributes siteDefaultLayout) siteDefaultLayout

/-! ## Concrete scenario: alias registration (claim C3) -/

/-- The stored intro page of the alias scenario, as the classifier would add
it. -/
def introPageFile : File :=
  File.mk (some "modules/ROOT/pages/intro.adoc") (some "text/asciidoc")
    { component := "docs", version := "2.0", module := "ROOT", family := "page",
      relative := "intro.adoc", basename := "intro.adoc", stem := "intro",
      extname := ".adoc", mediaType := "text/asciidoc" }
    none none none none

/-- The catalog of the alias scenario: component docs 2.0 plus the intro
page. -/
def c3CatalogE : Except String Catalog :=
  match (Catalog.init {}).addComponentVersion "docs" "2.0" "Docs" none with
  | .ok cat => cat.addFile introPageFile
  | .error e => .error e

/-- The identity of the intro page. -/
def introPageId : SrcId :=
  { component := some "docs", version := some "2.0", module := some "ROOT",
    family := "page", relative := "intro.adoc" }

/-- The identity of the registered alias. -/
def oldIntroAliasId : SrcId :=
  { component := some "docs", version := some "2.0", module := some "ROOT",
    family := "alias", relative := "old-intro.adoc" }

/-- The target page as stored in the catalog (with its computed out and pub). -/
def c3Target : Option File :=
  match c3CatalogE with
  | .ok cat => cat.getById introPageId
  | .error _ => none

/-- The first alias registration of the scenario. -/
def c3FirstE : Except String (Option File × Catalog) :=
  match c3CatalogE, c3Target with
  | .ok cat, some target => cat.registerPageAlias "2.0@docs::old-intro" target
  | _, _ => .error "setup"

/-- The second, identical alias registration. -/
def c3SecondE : Except String (Option File × Catalog) :=
  match c3FirstE, c3Target with
  | .ok (_, cat), some target => cat.registerPageAlias "2.0@docs::old-intro" target
  | _, _ => .error "setup"

/-- An AliasConflict failure in the sense of the spec's error taxonomy: one of
the two distinct registerPageAlias conflict messages. -/
def isAliasConflict : Except String (Option File × Catalog) → Prop
  | .error e =>
    ("Page alias cannot reference an existing page: ".data).isPrefixOf e.data ∨
      ("Page alias cannot reference itself: ".data).isPrefixOf e.data
  | _ => False

/-! ## Theorems -/

/-- C6: for the page src (docs, 1.0, ROOT, intro.adoc, text/asciidoc),
computeOut and computePub yield out.path "docs/1.0/intro.html" and pub.url
"/docs/1.0/intro.html" under the default style, pub.url "/docs/1.0/intro"
under drop, and out.path "docs/1.0/intro/index.html" with pub.url
"/docs/1.0/intro/" under indexify. -/
theorem claim_C6 :
    (computeOut introSrc "page" "default").path = "docs/1.0/intro.html" ∧
    (computePub introSrc (some (computeOut introSrc "page" "default")) "page" "default").map
      Pub.url = some "/docs/1.0/intro.html" ∧
    (computePub introSrc (some (computeOut introSrc "page" "drop")) "page" "drop").map
      Pub.url = some "/docs/1.0/intro" ∧
    (computeOut introSrc "page" "indexify").path = "docs/1.0/intro/index.html" ∧
    (computePub introSrc (some (computeOut introSrc "page" "indexify")) "page" "indexify").map
      Pub.url = some "/docs/1.0/intro/" := by
  refine ⟨?_, ?_, ?_, ?_, ?_⟩ <;> decide

/-- C8: parsing "ver@comp:mod:topic/page.adoc" with an empty context and
reconstructing version@component:module:relative from the result yields the
original spec. -/
theorem claim_C8 :
    (parsePageId "ver@comp:mod:topic/page.adoc" {}).map
      (fun id => optStr id.version ++ "@" ++ optStr id.component ++ ":" ++
        optStr id.module ++ ":" ++ id.relative) =
      some "ver@comp:mod:topic/page.adoc" := by decide

/-- C3 counterexample: registering the same alias a second time does fail, but
with the catalog's duplicate-file error thrown by addFile, not with either
AliasConflict message: the conflict check looks the parsed id up in the page
family, and the alias is stored in the alias family. -/
theorem claim_C3_counterexample :
    c3SecondE = .error "Duplicate alias: 2.0@docs:ROOT:old-intro.adoc" ∧
      ¬ isAliasConflict c3SecondE := by
  constructor
  · rfl
  · intro h
    rw [show c3SecondE = .error "Duplicate alias: 2.0@docs:ROOT:old-intro.adoc" from rfl] at h
    rcases h with h | h <;> revert h <;> decide

/-- C3 (amended): in a catalog containing the page (docs, 2.0, ROOT, page,
intro.adoc), registerPageAlias("2.0@docs::old-intro", thatPage) adds a file
so that getById of (docs, 2.0, ROOT, alias, old-intro.adoc) returns a file
whose rel is that page; a second registerPageAlias call with the same alias
spec and target fails, with the duplicate-file error from addFile rather than
an AliasConflict. -/
theorem claim_C3 :
    c3Target.isSome = true ∧
    (match c3FirstE with
     | .ok (_, cat) => (cat.getById oldIntroAliasId).bind File.rel
     | .error _ => none) = c3Target ∧
    c3SecondE = .error "Duplicate alias: 2.0@docs:ROOT:old-intro.adoc" := by
  exact ⟨rfl, rfl, rfl⟩

/-- The parsing context registerPageAlias derives from its target page. -/
def aliasCtx (target : File) : Ctx :=
  { component := some target.src.component, version := some target.src.version,
    module := some target.src.module }

/-- C10: registerPageAlias returns undefined and leaves the catalog unchanged
(no file added, no error) when the alias spec fails to parse, when the parsed
component is not in the catalog, and when an explicit version in the spec is
not among the component's versions. -/
theorem claim_C10 (cat : Catalog) (aliasSpec : String) (target : File) :
    (parsePageId aliasSpec (aliasCtx target) = none →
      cat.registerPageAlias aliasSpec target = .ok (none, cat)) ∧
    (∀ src0 : SrcId, parsePageId aliasSpec (aliasCtx target) = some src0 →
      cat.getComponentOpt src0.component = none →
      cat.registerPageAlias aliasSpec target = .ok (none, cat)) ∧
    (∀ (src0 : SrcId) (component : Component),
      parsePageId aliasSpec (aliasCtx target) = some src0 →
      cat.getComponentOpt src0.component = some component →
      ¬ strFalsy src0.version = true →
      component.versions.any (fun c => c.version = optStr src0.version) = false →
      cat.registerPageAlias aliasSpec target = .ok (none, cat)) := by
  refine ⟨fun h => ?_, fun src0 h hc => ?_, fun src0 component h hc hv hnone => ?_⟩
  · simp only [Catalog.registerPageAlias, aliasCtx] at h ⊢
    rw [h]
  · simp only [Catalog.registerPageAlias, aliasCtx] at h hc ⊢
    rw [h]
    dsimp only
    rw [hc]
  · simp only [Catalog.registerPageAlias, aliasCtx] at h hc ⊢
    rw [h]
    dsimp only
    rw [hc]
    simp [hv, hnone]

/-- A concrete catalog for witnesses: component docs with version 2.0 and the
intro page. -/
def docsCatalog : Catalog :=
  match c3CatalogE with
  | .ok cat => cat
  | .error _ => Catalog.init {}

/-- The docs component of the witness catalog. -/
def docsComponent : Component :=
  { name := "docs", title := "Docs", url := "/docs/2.0/index.html",
    versions := [{ title := "Docs", version := "2.0", url := "/docs/2.0/index.html" }] }

/-- Witness for C10: the three return-undefined cases at concrete inputs. -/
theorem claim_C10_witness :
    docsCatalog.registerPageAlias ":::" introPageFile = .ok (none, docsCatalog) ∧
    docsCatalog.registerPageAlias "nope::x" introPageFile = .ok (none, docsCatalog) ∧
    docsCatalog.registerPageAlias "9.9@docs::x" introPageFile = .ok (none, docsCatalog) := by
  refine ⟨(claim_C10 docsCatalog ":::" introPageFile).1 (by decide),
    (claim_C10 docsCatalog "nope::x" introPageFile).2.1
      { component := some "nope", version := none, module := some "ROOT",
        family := "page", relative := "x.adoc" } (by decide) (by decide),
    (claim_C10 docsCatalog "9.9@docs::x" introPageFile).2.2
      { component := some "docs", version := some "9.9", module := some "ROOT",
        family := "page", relative := "x.adoc" } docsComponent
      (by decide) (by decide) (by decide) (by decide)⟩

/-- Rebuilding a string from its character data. -/
theorem mk_data_eq (s : String) : String.mk s.data = s := by
  cases s
  rfl

/-- splitChar on a list free of the separator returns the single segment. -/
theorem splitChar_not_mem {c : Char} : ∀ {cs : List Char}, c ∉ cs → splitChar c cs = [cs]
  | [], _ => rfl
  | x :: xs, h => by
    have hx : ¬ x = c := fun he => h (he ▸ List.mem_cons_self x xs)
    have hxs : c ∉ xs := fun hm => h (List.mem_cons_of_mem x hm)
    simp only [splitChar, if_neg hx, splitChar_not_mem hxs]

/-- splitChar splits at the first separator when the prefix is free of it. -/
theorem splitChar_append {c : Char} : ∀ {xs : List Char} (ys : List Char), c ∉ xs →
    splitChar c (xs ++ c :: ys) = xs :: splitChar c ys
  | [], ys, _ => by simp [splitChar]
  | x :: xs, ys, h => by
    have hx : ¬ x = c := fun he => h (he ▸ List.mem_cons_self x xs)
    have hxs : c ∉ xs := fun hm => h (List.mem_cons_of_mem x hm)
    rw [List.cons_append]
    simp only [splitChar, if_neg hx, splitChar_append ys hxs]

/-- parsePageId on a spec with a single colon-separated qualifier: the
qualifier becomes the module, while component and version fall back to the
context. -/
theorem parsePageId_one_qualifier (ctx : Ctx) (q p : String) (hq : ¬ q = "")
    (hqc : ':' ∉ q.data) (hqa : '@' ∉ q.data) (hp : ¬ p = "") (hpc : ':' ∉ p.data)
    (hpa : '@' ∉ p.data) :
    parsePageId (q ++ ":" ++ p) ctx =
      some { component := ctx.component, version := ctx.version, module := some q,
             family := "page", relative := stripAdoc p ++ ".adoc" } := by
  have hdata : (q ++ ":" ++ p).data = q.data ++ ':' :: p.data := by
    simp [String.data_append]
  have hat : '@' ∉ (q ++ ":" ++ p).data := by
    rw [hdata]
    simp only [List.mem_append, List.mem_cons, not_or]
    exact ⟨hqa, by decide, hpa⟩
  have hsv : splitVersion (q ++ ":" ++ p) = none := by
    unfold splitVersion splitOnChar
    rw [splitChar_not_mem hat]
    rfl
  have hsplit : splitOnChar ':' (q ++ ":" ++ p) = [q, p] := by
    unfold splitOnChar
    rw [hdata, splitChar_append _ hqc, splitChar_not_mem hpc]
    simp [mk_data_eq]
  have hpr : parseRest (q ++ ":" ++ p) = some (none, some q, stripAdoc p) := by
    unfold parseRest
    rw [hsplit]
    simp [hp, hq]
  unfold parsePageId
  rw [hsv, hpr]
  simp

/-- parsePageId on a spec with two colon-separated qualifiers: the first
becomes the component, the second the module (defaulting to ROOT when empty),
and the version stays undefined. -/
theorem parsePageId_two_qualifiers (ctx : Ctx) (c m p : String) (hc : ¬ c = "")
    (hcc : ':' ∉ c.data) (hca : '@' ∉ c.data) (hmc : ':' ∉ m.data) (hma : '@' ∉ m.data)
    (hp : ¬ p = "") (hpc : ':' ∉ p.data) (hpa : '@' ∉ p.data) :
    parsePageId (c ++ ":" ++ m ++ ":" ++ p) ctx =
      some { component := some c, version := none,
             module := some (if m = "" then "ROOT" else m),
             family := "page", relative := stripAdoc p ++ ".adoc" } := by
  have hdata : (c ++ ":" ++ m ++ ":" ++ p).data = c.data ++ ':' :: (m.data ++ ':' :: p.data) := by
    simp [String.data_append]
  have hat : '@' ∉ (c ++ ":" ++ m ++ ":" ++ p).data := by
    rw [hdata]
    simp only [List.mem_append, List.mem_cons, not_or]
    exact ⟨hca, by decide, hma, by decide, hpa⟩
  have hsv : splitVersion (c ++ ":" ++ m ++ ":" ++ p) = none := by
    unfold splitVersion splitOnChar
    rw [splitChar_not_mem hat]
    rfl
  have hsplit : splitOnChar ':' (c ++ ":" ++ m ++ ":" ++ p) = [c, m, p] := by
    unfold splitOnChar
    rw [hdata, splitChar_append _ hcc, splitChar_append _ hmc, splitChar_not_mem hpc]
    simp [mk_data_eq]
  have hpr : parseRest (c ++ ":" ++ m ++ ":" ++ p) =
      some (some c, if m = "" then none else some m, stripAdoc p) := by
    unfold parseRest
    rw [hsplit]
    simp [hp, hc]
  unfold parsePageId
  rw [hsv, hpr]
  by_cases hm : m = "" <;> simp [hm]

/-- C9: a spec with exactly one colon-separated qualifier before the page path
assigns that qualifier to the module and never to the component, which (like
the version and, when absent, the module) falls back to the context; a spec
with two qualifiers assigns the component, with the module defaulting to ROOT
when its qualifier is empty. -/
theorem claim_C9 (ctx : Ctx) (q c m p : String) (hq : ¬ q = "")
    (hqc : ':' ∉ q.data) (hqa : '@' ∉ q.data) (hc : ¬ c = "") (hcc : ':' ∉ c.data)
    (hca : '@' ∉ c.data) (hmc : ':' ∉ m.data) (hma : '@' ∉ m.data) (hp : ¬ p = "")
    (hpc : ':' ∉ p.data) (hpa : '@' ∉ p.data) :
    parsePageId (q ++ ":" ++ p) ctx =
      some { component := ctx.component, version := ctx.version, module := some q,
             family := "page", relative := stripAdoc p ++ ".adoc" } ∧
    parsePageId (c ++ ":" ++ m ++ ":" ++ p) ctx =
      some { component := some c, version := none,
             module := some (if m = "" then "ROOT" else m),
             family := "page", relative := stripAdoc p ++ ".adoc" } :=
  ⟨parsePageId_one_qualifier ctx q p hq hqc hqa hp hpc hpa,
   parsePageId_two_qualifiers ctx c m p hc hcc hca hmc hma hp hpc hpa⟩

/-- Witness for C9 at the concrete specs "mod:topic/page" and
"comp::topic/page" in a fully populated context. -/
theorem claim_C9_witness :
    parsePageId ("mod" ++ ":" ++ "topic/page")
        { component := some "ctxc", version := some "1.0", module := some "ctxm" } =
      some { component := some "ctxc", version := some "1.0", module := some "mod",
             family := "page", relative := "topic/page.adoc" } ∧
    parsePageId ("comp" ++ ":" ++ "" ++ ":" ++ "topic/page")
        { component := some "ctxc", version := some "1.0", module := some "ctxm" } =
      some { component := some "comp", version := none, module := some "ROOT",
             family := "page", relative := "topic/page.adoc" } := by
  have h := claim_C9 { component := some "ctxc", version := some "1.0", module := some "ctxm" }
    "mod" "comp" "" "topic/page" (by decide) (by decide) (by decide) (by decide) (by decide)
    (by decide) (by decide) (by decide) (by decide) (by decide) (by decide)
  exact h

/-- C7: the composed page's layout is the page-layout attribute when set (and
truthy), else the site default; a requested layout without a template falls
back to the default when that differs and has a template; composition fails
when the requested layout equals the default or the default is also missing;
and a missing "404" request fails directly, whatever the default layout is. -/
theorem claim_C7 (layouts : List String) (attributes : List (String × String))
    (siteDefaultLayout : String) :
    (∀ v, lastAssigned "layout" (pageAttributes attributes) = some v → ¬ v = "" →
      pageLayout attributes siteDefaultLayout = v) ∧
    (lastAssigned "layout" (pageAttributes attributes) = none →
      pageLayout attributes siteDefaultLayout = siteDefaultLayout) ∧
    (layouts.contains (pageLayout attributes siteDefaultLayout) = true →
      composePageLayout layouts attributes siteDefaultLayout =
        .ok (pageLayout attributes siteDefaultLayout)) ∧
    (layouts.contains (pageLayout attributes siteDefaultLayout) = false →
      ¬ pageLayout attributes siteDefaultLayout = "404" →
      ¬ pageLayout attributes siteDefaultLayout = siteDefaultLayout →
      layouts.contains siteDefaultLayout = true →
      composePageLayout layouts attributes siteDefaultLayout = .ok siteDefaultLayout) ∧
    (layouts.contains (pageLayout attributes siteDefaultLayout) = false →
      (pageLayout attributes siteDefaultLayout = siteDefaultLayout ∨
        layouts.contains siteDefaultLayout = false) →
      ∃ e, composePageLayout layouts attributes siteDefaultLayout = .error e) ∧
    (pageLayout attributes siteDefaultLayout = "404" → layouts.contains "404" = false →
      composePageLayout layouts attributes siteDefaultLayout =
        .error "404 layout not found") := by
  refine ⟨fun v hv hne => ?_, fun hnone => ?_, fun hin => ?_, fun hno h404 hnd hd => ?_,
    fun hno hcase => ?_, fun h404 hno => ?_⟩
  · unfold pageLayout
    rw [hv]
    simp [hne]
  · unfold pageLayout
    rw [hnone]
  · simp only [composePageLayout, selectLayout, hin]
    simp
  · have hnd' : ¬ siteDefaultLayout = pageLayout attributes siteDefaultLayout :=
      fun he => hnd he.symm
    simp only [composePageLayout, selectLayout, hno, if_neg h404, if_neg hnd', hd]
    simp
  · cases hres : composePageLayout layouts attributes siteDefaultLayout with
    | error e => exact ⟨e, rfl⟩
    | ok l =>
      exfalso
      unfold composePageLayout selectLayout at hres
      split_ifs at hres with h1 h2 h3 h4 <;>
        first
          | (rw [hno] at h1
             exact absurd h1 (by decide))
          | (rcases hcase with hca | hcb
             · exact absurd hca (fun he => h3 he.symm)
             · (first
                 | (have h4' := not_not.mp h4)
                 | (have h4' := h4))
               rw [hcb] at h4'
               exact absurd h4' (by decide))
  · simp only [composePageLayout, selectLayout, h404, hno]
    simp

/-- Witness for C7: with only a default layout installed, a page requesting a
missing grid layout falls back to the default, and a page requesting the
missing 404 layout fails directly. -/
theorem claim_C7_witness :
    composePageLayout ["default"] [("page-layout", "grid")] "default" = .ok "default" ∧
    composePageLayout ["default"] [("page-layout", "404")] "default" =
      .error "404 layout not found" := by
  constructor
  · exact (claim_C7 ["default"] [("page-layout", "grid")] "default").2.2.2.1
      (by decide) (by decide) (by decide) (by decide)
  · exact (claim_C7 ["default"] [("page-layout", "404")] "default").2.2.2.2.2
      (by decide) (by decide)

/-- A path segment of a relative path begins with an underscore. -/
def hasUnderscoreSegment (relative : String) : Bool :=
  (splitOnChar '/' relative).any (fun seg => ("_".data).isPrefixOf seg.data)

/-- splitChar never returns an empty list of segments. -/
theorem splitChar_ne_nil (c : Char) : ∀ cs : List Char, splitChar c cs ≠ []
  | [], h => by simp [splitChar] at h
  | x :: xs, h => by
    by_cases hx : x = c
    · simp [splitChar, hx] at h
    · simp only [splitChar, if_neg hx] at h
      rcases hs : splitChar c xs with _ | ⟨s, ss⟩
      · exact splitChar_ne_nil c xs hs
      · rw [hs] at h
        exact List.cons_ne_nil _ _ h

/-- The `/_` substring test against a slash-prefixed path is exactly the
segment-starts-with-underscore test on the split path (joint induction with
the version of the test that ignores the first, unprefixed segment). -/
theorem containsSub_underscore : ∀ cs : List Char,
    (containsSub ['/', '_'] ('/' :: cs) =
      (splitChar '/' cs).any (fun seg => (['_'] : List Char).isPrefixOf seg)) ∧
    (containsSub ['/', '_'] cs =
      ((splitChar '/' cs).tail).any (fun seg => (['_'] : List Char).isPrefixOf seg))
  | [] => by constructor <;> decide
  | x :: xs => by
    obtain ⟨ih1, ih2⟩ := containsSub_underscore xs
    by_cases hx : x = '/'
    · subst hx
      have hsplit : splitChar '/' ('/' :: xs) = [] :: splitChar '/' xs := by
        simp [splitChar]
      constructor
      · show (List.isPrefixOf ['/', '_'] ('/' :: '/' :: xs) ||
            containsSub ['/', '_'] ('/' :: xs)) = _
        have hpre : List.isPrefixOf ['/', '_'] ('/' :: '/' :: xs) = false := rfl
        rw [hpre, hsplit, ih1]
        simp
      · rw [hsplit]
        exact ih1
    · have hbeq : (('/' : Char) == x) = false := beq_eq_false_iff_ne.mpr (fun h => hx h.symm)
      have hnopre : List.isPrefixOf ['/', '_'] (x :: xs) = false := by
        show (('/' : Char) == x && List.isPrefixOf ['_'] xs) = false
        rw [hbeq]
        rfl
      rcases hs : splitChar '/' xs with _ | ⟨s, ss⟩
      · exact absurd hs (splitChar_ne_nil '/' xs)
      · have hsplit : splitChar '/' (x :: xs) = (x :: s) :: ss := by
          simp only [splitChar, if_neg hx, hs]
        constructor
        · show (List.isPrefixOf ['/', '_'] ('/' :: x :: xs) ||
              containsSub ['/', '_'] (x :: xs)) = _
          have hpre : List.isPrefixOf ['/', '_'] ('/' :: x :: xs) =
              (['_'] : List Char).isPrefixOf (x :: s) := by
            simp [List.isPrefixOf]
          have hrest : containsSub ['/', '_'] (x :: xs) =
              ss.any (fun seg => (['_'] : List Char).isPrefixOf seg) := by
            show (List.isPrefixOf ['/', '_'] (x :: xs) || containsSub ['/', '_'] xs) = _
            rw [hnopre, ih2, hs]
            simp
          rw [hpre, hrest, hsplit]
          simp
        · show (List.isPrefixOf ['/', '_'] (x :: xs) || containsSub ['/', '_'] xs) = _
          rw [hnopre, ih2, hs, hsplit]
          simp

/-- The publishability test of addFile, restated on the split relative path. -/
theorem containsSub_relative (relative : String) :
    containsSub ['/', '_'] ("/" ++ relative).data = hasUnderscoreSegment relative := by
  have hdata : ("/" ++ relative).data = '/' :: relative.data := by
    simp [String.data_append]
  rw [hdata, (containsSub_underscore relative.data).1]
  unfold hasUnderscoreSegment splitOnChar
  induction splitChar '/' relative.data with
  | nil => rfl
  | cons s ss ih => simp [ih]

/-- Replacing out keeps the other file fields. -/
theorem File.out_withOut (f : File) (o : Option Out) : (f.withOut o).out = o := by
  cases f
  rfl

/-- Replacing out keeps pub. -/
theorem File.pub_withOut (f : File) (o : Option Out) : (f.withOut o).pub = f.pub := by
  cases f
  rfl

/-- Replacing out keeps src. -/
theorem File.src_withOut (f : File) (o : Option Out) : (f.withOut o).src = f.src := by
  cases f
  rfl

/-- Replacing out keeps rel. -/
theorem File.rel_withOut (f : File) (o : Option Out) : (f.withOut o).rel = f.rel := by
  cases f
  rfl

/-- Replacing pub keeps out. -/
theorem File.out_withPub (f : File) (p : Option Pub) : (f.withPub p).out = f.out := by
  cases f
  rfl

/-- Replacing pub sets pub. -/
theorem File.pub_withPub (f : File) (p : Option Pub) : (f.withPub p).pub = p := by
  cases f
  rfl

/-- Replacing pub keeps src. -/
theorem File.src_withPub (f : File) (p : Option Pub) : (f.withPub p).src = f.src := by
  cases f
  rfl

/-- Replacing pub keeps rel. -/
theorem File.rel_withPub (f : File) (p : Option Pub) : (f.withPub p).rel = f.rel := by
  cases f
  rfl

/-- computePub always produces a record when the out record is present. -/
theorem computePub_some (src : Src) (o : Out) (family style : String) :
    ∃ p, computePub src (some o) family style = some p := by
  unfold computePub
  split_ifs <;> exact ⟨_, rfl⟩

/-- computePub produces a record for the navigation family even without out. -/
theorem computePub_nav_none (src : Src) (style : String) :
    ∃ p, computePub src none "navigation" style = some p := by
  unfold computePub
  simp

/-- C4: a file added without a precomputed out or pub receives an out (and is
publishable) exactly when its acting family (the rel target's family for an
alias) is page, image or attachment and no path segment of src.relative
begins with an underscore, and receives a pub exactly when it is publishable
or its acting family is navigation. -/
theorem claim_C4 (cat : Catalog) (f : File) (cat2 : Catalog) (af : String)
    (hout : f.out = none) (hpub : f.pub = none) (hacting : f.actingFamily = some af)
    (hadd : cat.addFile f = .ok cat2) :
    ∃ stored : File,
      cat2.files = cat.files ++ [(f.src.idOf, stored)] ∧
      (¬ stored.out = none ↔
        ((af = "page" ∨ af = "image" ∨ af = "attachment") ∧
          hasUnderscoreSegment f.src.relative = false)) ∧
      (¬ stored.pub = none ↔
        (((af = "page" ∨ af = "image" ∨ af = "attachment") ∧
          hasUnderscoreSegment f.src.relative = false) ∨ af = "navigation")) := by
  have hiff : ((af = "page" ∨ af = "image" ∨ af = "attachment") ∧
      ¬ containsSub ['/', '_'] ("/" ++ f.src.relative).data = true) ↔
      ((af = "page" ∨ af = "image" ∨ af = "attachment") ∧
        hasUnderscoreSegment f.src.relative = false) := by
    rw [containsSub_relative]
    simp [Bool.not_eq_true]
  simp only [Catalog.addFile] at hadd
  rcases hlk : alookup f.src.idOf cat.files with _ | g
  · rw [hlk, hacting, hout] at hadd
    dsimp only at hadd
    by_cases hP : (af = "page" ∨ af = "image" ∨ af = "attachment") ∧
        ¬ containsSub ['/', '_'] ("/" ++ f.src.relative).data = true
    · rw [if_pos hP] at hadd
      dsimp only at hadd
      obtain ⟨p, hp⟩ := computePub_some f.src
        (computeOut f.src af cat.htmlUrlExtensionStyle) af cat.htmlUrlExtensionStyle
      rw [File.pub_withOut, File.src_withOut, File.out_withOut] at hadd
      rw [if_pos ⟨hpub, Or.inl rfl⟩] at hadd
      rw [hp] at hadd
      cases hadd
      refine ⟨_, rfl, ?_, ?_⟩
      · rw [File.out_withPub, File.out_withOut]
        simp only [hiff.mp hP]
        simp
      · rw [File.pub_withPub]
        simp [hiff.mp hP]
    · rw [if_neg hP] at hadd
      dsimp only at hadd
      by_cases hnav : af = "navigation"
      · subst hnav
        rw [if_pos ⟨hpub, Or.inr rfl⟩] at hadd
        rw [hout] at hadd
        obtain ⟨p, hp⟩ := computePub_nav_none f.src cat.htmlUrlExtensionStyle
        rw [hp] at hadd
        cases hadd
        refine ⟨_, rfl, ?_, ?_⟩
        · rw [File.out_withPub, hout]
          simp only [not_true_eq_false, false_iff]
          exact fun hc => hP (hiff.mpr hc)
        · rw [File.pub_withPub]
          simp
      · rw [if_neg (fun hc => hc.2.elim (fun hb => absurd hb (by decide)) hnav)] at hadd
        cases hadd
        refine ⟨_, rfl, ?_, ?_⟩
        · rw [hout]
          simp only [not_true_eq_false, false_iff]
          exact fun hc => hP (hiff.mpr hc)
        · rw [hpub]
          simp only [not_true_eq_false, false_iff]
          rintro (hc | hc)
          · exact hP (hiff.mpr hc)
          · exact hnav hc
  · rw [hlk] at hadd
    cases hadd

/-- The catalog resulting from adding the intro page to an empty catalog. -/
def c4Catalog : Catalog :=
  match (Catalog.init {}).addFile introPageFile with
  | .ok cat2 => cat2
  | .error _ => Catalog.init {}

/-- Witness for C4: adding a fresh page file to the empty catalog computes its
out and pub. -/
theorem claim_C4_witness :
    (c4Catalog.files.any fun kv => kv.2.out.isSome && kv.2.pub.isSome) = true := by
  obtain ⟨stored, hfiles, hiff1, hiff2⟩ :=
    claim_C4 (Catalog.init {}) introPageFile c4Catalog "page" rfl rfl rfl rfl
  have h1 := hiff1.mpr ⟨Or.inl rfl, by decide⟩
  have h2 := hiff2.mpr (Or.inl ⟨Or.inl rfl, by decide⟩)
  rw [show c4Catalog.files = [(introPageFile.src.idOf, stored)] from by simpa using hfiles]
  simp [Option.isSome_iff_ne_none, h1, h2]

/-! ## Order properties of the version comparison -/

/-- charLtB in terms of code points. -/
theorem charLtB_iff {a b : Char} : charLtB a b = true ↔ a.toNat < b.toNat := by
  simp [charLtB]

/-- Characters with equal code points are equal. -/
theorem char_toNat_inj {a b : Char} (h : a.toNat = b.toNat) : a = b := by
  have hmono : StrictMono Char.toNat := fun _ _ hl => hl
  exact hmono.injective h

/-- charLtB is irreflexive. -/
theorem charLtB_irrefl (a : Char) : charLtB a a = false := by
  simp [charLtB]

/-- charLtB is asymmetric. -/
theorem charLtB_asymm {a b : Char} (h : charLtB a b = true) : charLtB b a = false := by
  rw [charLtB_iff] at h
  simp [charLtB]
  omega

/-- charLtB is connected: mutually incomparable characters are equal. -/
theorem charLtB_conn {a b : Char} (h1 : charLtB a b = false) (h2 : charLtB b a = false) :
    a = b := by
  simp [charLtB] at h1 h2
  exact char_toNat_inj (by omega)

/-- charLtB is transitive. -/
theorem charLtB_trans {a b c : Char} (h1 : charLtB a b = true) (h2 : charLtB b c = true) :
    charLtB a c = true := by
  rw [charLtB_iff] at h1 h2 ⊢
  omega

/-- lexLtB is asymmetric. -/
theorem lexLtB_asymm : ∀ {x y : List Char}, lexLtB x y = true → lexLtB y x = false
  | [], [], h => by simp [lexLtB] at h
  | [], _ :: _, _ => by simp [lexLtB]
  | _ :: _, [], h => by simp [lexLtB] at h
  | a :: as, b :: bs, h => by
    simp only [lexLtB, Bool.or_eq_true, Bool.and_eq_true, decide_eq_true_eq] at h
    simp only [lexLtB, Bool.or_eq_false_iff, Bool.and_eq_false_iff]
    rcases h with h | ⟨hab, h⟩
    · refine ⟨charLtB_asymm h, Or.inl ?_⟩
      simp only [decide_eq_false_iff_not]
      intro he
      subst he
      exact absurd h (by simp [charLtB_irrefl])
    · subst hab
      exact ⟨charLtB_irrefl a, Or.inr (lexLtB_asymm h)⟩

/-- lexLtB is connected: mutually incomparable lists are equal. -/
theorem lexLtB_conn : ∀ {x y : List Char}, lexLtB x y = false → lexLtB y x = false → x = y
  | [], [], _, _ => rfl
  | [], _ :: _, h, _ => by simp [lexLtB] at h
  | _ :: _, [], _, h => by simp [lexLtB] at h
  | a :: as, b :: bs, h1, h2 => by
    simp only [lexLtB, Bool.or_eq_false_iff, Bool.and_eq_false_iff] at h1 h2
    have hab : a = b := charLtB_conn h1.1 h2.1
    subst hab
    rcases h1.2 with h1' | h1'
    · simp at h1'
    · rcases h2.2 with h2' | h2'
      · simp at h2'
      · rw [lexLtB_conn h1' h2']

/-- lexLtB is transitive. -/
theorem lexLtB_trans : ∀ {x y z : List Char}, lexLtB x y = true → lexLtB y z = true →
    lexLtB x z = true
  | [], [], _, h1, _ => by simp [lexLtB] at h1
  | [], _ :: _, [], _, h2 => by simp [lexLtB] at h2
  | [], _ :: _, _ :: _, _, _ => by simp [lexLtB]
  | _ :: _, [], _, h1, _ => by simp [lexLtB] at h1
  | _ :: _, _ :: _, [], _, h2 => by simp [lexLtB] at h2
  | a :: as, b :: bs, c :: cs, h1, h2 => by
    simp only [lexLtB, Bool.or_eq_true, Bool.and_eq_true, decide_eq_true_eq] at h1 h2 ⊢
    rcases h1 with h1 | ⟨hab, h1⟩
    · rcases h2 with h2 | ⟨hbc, h2⟩
      · exact Or.inl (charLtB_trans h1 h2)
      · subst hbc
        exact Or.inl h1
    · subst hab
      rcases h2 with h2 | ⟨hbc, h2⟩
      · exact Or.inl h2
      · subst hbc
        exact Or.inr ⟨rfl, lexLtB_trans h1 h2⟩

/-- strLtB is connected. -/
theorem strLtB_conn {a b : String} (h1 : strLtB a b = false) (h2 : strLtB b a = false) :
    a = b := by
  have h := lexLtB_conn h1 h2
  cases a
  cases b
  exact congrArg String.mk h

/-- strLtB is transitive. -/
theorem strLtB_trans {a b c : String} (h1 : strLtB a b = true) (h2 : strLtB b c = true) :
    strLtB a c = true :=
  lexLtB_trans h1 h2

/-- strLtB is irreflexive. -/
theorem strLtB_irrefl (s : String) : strLtB s s = false := by
  rcases h : strLtB s s with _ | _
  · rfl
  · exact absurd (lexLtB_asymm h) (by rw [show lexLtB s.data s.data = strLtB s s from rfl, h]; simp)

/-- The lt branch of cmpStr. -/
theorem cmpStr_of_lt {a b : String} (h : strLtB a b = true) : cmpStr a b = .lt := by
  unfold cmpStr
  rw [h]
  rfl

/-- The gt branch of cmpStr. -/
theorem cmpStr_of_gt {a b : String} (h1 : strLtB a b = false) (h2 : strLtB b a = true) :
    cmpStr a b = .gt := by
  unfold cmpStr
  rw [h1, h2]
  rfl

/-- The eq branch of cmpStr. -/
theorem cmpStr_of_eq {a b : String} (h1 : strLtB a b = false) (h2 : strLtB b a = false) :
    cmpStr a b = .eq := by
  unfold cmpStr
  rw [h1, h2]
  rfl

/-- cmpStr mirrors swapped arguments. -/
theorem cmpStr_swap (a b : String) : cmpStr a b = (cmpStr b a).swap := by
  rcases hab : strLtB a b with _ | _ <;> rcases hba : strLtB b a with _ | _
  · rw [cmpStr_of_eq hab hba, cmpStr_of_eq hba hab]
    rfl
  · rw [cmpStr_of_gt hab hba, cmpStr_of_lt hba]
    rfl
  · rw [cmpStr_of_lt hab, cmpStr_of_gt hba hab]
    rfl
  · exact absurd (lexLtB_asymm hab) (by rw [show lexLtB b.data a.data = strLtB b a from rfl, hba]; simp)

/-- cmpStr only returns eq on equal strings. -/
theorem cmpStr_eq {a b : String} (h : cmpStr a b = .eq) : a = b := by
  rcases hab : strLtB a b with _ | _ <;> rcases hba : strLtB b a with _ | _
  · exact strLtB_conn hab hba
  · rw [cmpStr_of_gt hab hba] at h
    simp at h
  · rw [cmpStr_of_lt hab] at h
    simp at h
  · rw [cmpStr_of_lt hab] at h
    simp at h

/-- cmpStr is transitive on lt. -/
theorem cmpStr_lt_trans {a b c : String} (h1 : cmpStr a b = .lt) (h2 : cmpStr b c = .lt) :
    cmpStr a c = .lt := by
  have hab : strLtB a b = true := by
    rcases hx : strLtB a b with _ | _
    · rcases hy : strLtB b a with _ | _
      · rw [cmpStr_of_eq hx hy] at h1
        simp at h1
      · rw [cmpStr_of_gt hx hy] at h1
        simp at h1
    · rfl
  have hbc : strLtB b c = true := by
    rcases hx : strLtB b c with _ | _
    · rcases hy : strLtB c b with _ | _
      · rw [cmpStr_of_eq hx hy] at h2
        simp at h2
      · rw [cmpStr_of_gt hx hy] at h2
        simp at h2
    · rfl
  exact cmpStr_of_lt (strLtB_trans hab hbc)

/-- The lt branch of cmpNat. -/
theorem cmpNat_of_lt {m n : Nat} (h : m < n) : cmpNat m n = .lt := by
  unfold cmpNat
  rw [if_pos h]

/-- The eq branch of cmpNat. -/
theorem cmpNat_of_eq {m n : Nat} (h : m = n) : cmpNat m n = .eq := by
  unfold cmpNat
  subst h
  simp

/-- The gt branch of cmpNat. -/
theorem cmpNat_of_gt {m n : Nat} (h : n < m) : cmpNat m n = .gt := by
  unfold cmpNat
  rw [if_neg (by omega), if_pos h]

/-- cmpNat mirrors swapped arguments. -/
theorem cmpNat_swap (m n : Nat) : cmpNat m n = (cmpNat n m).swap := by
  rcases Nat.lt_trichotomy m n with h | h | h
  · rw [cmpNat_of_lt h, cmpNat_of_gt h]
    rfl
  · rw [cmpNat_of_eq h, cmpNat_of_eq h.symm]
    rfl
  · rw [cmpNat_of_gt h, cmpNat_of_lt h]
    rfl

/-- cmpNat only returns eq on equal numbers. -/
theorem cmpNat_eq {m n : Nat} (h : cmpNat m n = .eq) : m = n := by
  rcases Nat.lt_trichotomy m n with hx | hx | hx
  · rw [cmpNat_of_lt hx] at h
    simp at h
  · exact hx
  · rw [cmpNat_of_gt hx] at h
    simp at h

/-- cmpNat is transitive on lt. -/
theorem cmpNat_lt_trans {m n k : Nat} (h1 : cmpNat m n = .lt) (h2 : cmpNat n k = .lt) :
    cmpNat m k = .lt := by
  have hmn : m < n := by
    rcases Nat.lt_trichotomy m n with hx | hx | hx
    · exact hx
    · rw [cmpNat_of_eq hx] at h1
      simp at h1
    · rw [cmpNat_of_gt hx] at h1
      simp at h1
  have hnk : n < k := by
    rcases Nat.lt_trichotomy n k with hx | hx | hx
    · exact hx
    · rw [cmpNat_of_eq hx] at h2
      simp at h2
    · rw [cmpNat_of_gt hx] at h2
      simp at h2
  exact cmpNat_of_lt (Nat.lt_trans hmn hnk)

/-- cmpSeg mirrors swapped arguments. -/
theorem cmpSeg_swap (a b : VSeg) : cmpSeg a b = (cmpSeg b a).swap := by
  cases a <;> cases b
  · exact cmpNat_swap _ _
  · rfl
  · rfl
  · exact cmpStr_swap _ _

/-- cmpSeg only returns eq on equal segments. -/
theorem cmpSeg_eq : forall {a b : VSeg}, cmpSeg a b = .eq -> a = b
  | .inl _, .inl _, h => by rw [cmpNat_eq h]
  | .inl _, .inr _, h => by simp [cmpSeg] at h
  | .inr _, .inl _, h => by simp [cmpSeg] at h
  | .inr _, .inr _, h => by rw [cmpStr_eq h]

/-- cmpSeg is transitive on lt. -/
theorem cmpSeg_lt_trans : forall {a b c : VSeg}, cmpSeg a b = .lt -> cmpSeg b c = .lt ->
    cmpSeg a c = .lt
  | .inl _, .inl _, .inl _, h1, h2 => cmpNat_lt_trans h1 h2
  | .inl _, .inl _, .inr _, _, _ => rfl
  | .inl _, .inr _, .inl _, _, h2 => by simp [cmpSeg] at h2
  | .inl _, .inr _, .inr _, _, _ => rfl
  | .inr _, .inl _, _, h1, _ => by simp [cmpSeg] at h1
  | .inr _, .inr _, .inl _, _, h2 => by simp [cmpSeg] at h2
  | .inr _, .inr _, .inr _, h1, h2 => cmpStr_lt_trans h1 h2

/-- cmpSeg of a segment with itself. -/
theorem cmpSeg_eq_refl (a : VSeg) : cmpSeg a a = .eq := by
  cases a
  · exact cmpNat_of_eq rfl
  · exact cmpStr_of_eq (strLtB_irrefl _) (strLtB_irrefl _)

/-- cmpSegs mirrors swapped arguments. -/
theorem cmpSegs_swap : forall (x y : List VSeg), cmpSegs x y = (cmpSegs y x).swap
  | [], [] => rfl
  | [], _ :: _ => rfl
  | _ :: _, [] => rfl
  | a :: as, b :: bs => by
    simp only [cmpSegs]
    rw [cmpSeg_swap a b]
    rcases cmpSeg b a with _ | _ | _
    · rfl
    · exact cmpSegs_swap as bs
    · rfl

/-- cmpSegs only returns eq on equal lists. -/
theorem cmpSegs_eq : forall {x y : List VSeg}, cmpSegs x y = .eq -> x = y
  | [], [], _ => rfl
  | [], _ :: _, h => by simp [cmpSegs] at h
  | _ :: _, [], h => by simp [cmpSegs] at h
  | a :: as, b :: bs, h => by
    simp only [cmpSegs] at h
    rcases hab : cmpSeg a b with _ | _ | _ <;> rw [hab] at h
    · simp at h
    · rw [cmpSeg_eq hab, cmpSegs_eq h]
    · simp at h

/-- cmpSegs is transitive on lt. -/
theorem cmpSegs_lt_trans : forall {x y z : List VSeg}, cmpSegs x y = .lt -> cmpSegs y z = .lt ->
    cmpSegs x z = .lt
  | [], [], _, h1, _ => by simp [cmpSegs] at h1
  | [], _ :: _, [], _, h2 => by simp [cmpSegs] at h2
  | [], _ :: _, _ :: _, _, _ => rfl
  | _ :: _, [], _, h1, _ => by simp [cmpSegs] at h1
  | _ :: _, _ :: _, [], _, h2 => by simp [cmpSegs] at h2
  | a :: as, b :: bs, c :: cs, h1, h2 => by
    simp only [cmpSegs] at h1 h2 ⊢
    rcases hab : cmpSeg a b with _ | _ | _ <;> rw [hab] at h1
    · rcases hbc : cmpSeg b c with _ | _ | _ <;> rw [hbc] at h2
      · rw [cmpSeg_lt_trans hab hbc]
      · rw [show cmpSeg a c = .lt from (cmpSeg_eq hbc) ▸ hab]
      · simp at h2
    · rcases hbc : cmpSeg b c with _ | _ | _ <;> rw [hbc] at h2
      · rw [show cmpSeg a c = .lt from (cmpSeg_eq hab).symm ▸ hbc]
      · rw [show cmpSeg a c = .eq from by
          rw [cmpSeg_eq hab, cmpSeg_eq hbc]
          exact cmpSeg_eq_refl c]
        exact cmpSegs_lt_trans h1 h2
      · simp at h2
    · simp at h1

/-- The value range of versionCompare. -/
theorem vc_cases (a b : String) :
    versionCompare a b = -1 \/ versionCompare a b = 0 \/ versionCompare a b = 1 := by
  unfold versionCompare
  rcases cmpSegs (versionKey b) (versionKey a) with _ | _ | _ <;> simp

/-- versionCompare is non-positive exactly when the key comparison is not gt. -/
theorem vc_le_zero {a b : String} :
    versionCompare a b <= 0 <-> cmpSegs (versionKey b) (versionKey a) ≠ .gt := by
  unfold versionCompare
  rcases h : cmpSegs (versionKey b) (versionKey a) with _ | _ | _ <;> simp [h]

/-- versionCompare is positive exactly when the key comparison is gt. -/
theorem vc_pos {a b : String} :
    0 < versionCompare a b <-> cmpSegs (versionKey b) (versionKey a) = .gt := by
  unfold versionCompare
  rcases h : cmpSegs (versionKey b) (versionKey a) with _ | _ | _ <;> simp [h]

/-- versionCompare is antisymmetric in sign. -/
theorem vc_le_of_pos {a b : String} (h : 0 < versionCompare a b) : versionCompare b a <= 0 := by
  rw [vc_le_zero]
  rw [vc_pos] at h
  rw [cmpSegs_swap, h]
  decide

/-- A non-positive result from a failed positivity test. -/
theorem vc_le_of_not_pos {a b : String} (h : ¬ 0 < versionCompare a b) :
    versionCompare a b <= 0 := by
  rcases vc_cases a b with h' | h' | h' <;> omega

/-- versionCompare's newer-or-equal relation is transitive. -/
theorem vc_trans {a b c : String} (h1 : versionCompare a b <= 0)
    (h2 : versionCompare b c <= 0) : versionCompare a c <= 0 := by
  rw [vc_le_zero] at h1 h2 ⊢
  rcases hx : cmpSegs (versionKey b) (versionKey a) with _ | _ | _
  · rcases hy : cmpSegs (versionKey c) (versionKey b) with _ | _ | _
    · rw [cmpSegs_lt_trans hy hx]
      simp
    · rw [cmpSegs_eq hy]
      exact h1
    · exact absurd hy h2
  · rw [cmpSegs_eq hx] at h2
    exact h2
  · exact absurd hx h1

/-! ## Sortedness of component versions (claim C5) -/

/-- Newest-to-oldest comparison between version entries. -/
def vcLE (a b : VersionEntry) : Prop := versionCompare a.version b.version <= 0

/-- The versions list of a component is sorted newest to oldest. -/
def versionsSorted (versions : List VersionEntry) : Prop := versions.Pairwise vcLE

/-- Members of an insertion result are the new entry or old members. -/
theorem insert_mem {name v : String} {e : VersionEntry} :
    ∀ {vs l : List VersionEntry} {b : Bool},
      insertVersionEntry name v e vs = .ok (l, b) → ∀ x ∈ l, x = e ∨ x ∈ vs := by
  intro vs
  induction vs with
  | nil =>
    intro l b h x hx
    unfold insertVersionEntry at h
    cases h
    simp at hx
    exact Or.inl hx
  | cons c rest ih =>
    intro l b h x hx
    rcases hr : insertVersionEntry name v e rest with he' | pr
    · unfold insertVersionEntry at h
      rw [hr] at h
      split_ifs at h with h1 h2
      · cases h
        rcases List.mem_cons.mp hx with hx | hx
        · exact Or.inl hx
        · exact Or.inr hx
    · obtain ⟨l2, b2⟩ := pr
      unfold insertVersionEntry at h
      rw [hr] at h
      split_ifs at h with h1 h2
      · cases h
        rcases List.mem_cons.mp hx with hx | hx
        · exact Or.inl hx
        · exact Or.inr hx
      · cases h
        rcases List.mem_cons.mp hx with hx | hx
        · exact Or.inr (by simp [hx])
        · rcases ih hr x hx with hx' | hx'
          · exact Or.inl hx'
          · exact Or.inr (List.mem_cons_of_mem c hx')

/-- The inserted entry is a member of the insertion result. -/
theorem insert_mem_self {name v : String} {e : VersionEntry} :
    ∀ {vs l : List VersionEntry} {b : Bool},
      insertVersionEntry name v e vs = .ok (l, b) → e ∈ l := by
  intro vs
  induction vs with
  | nil =>
    intro l b h
    unfold insertVersionEntry at h
    cases h
    simp
  | cons c rest ih =>
    intro l b h
    rcases hr : insertVersionEntry name v e rest with he' | pr
    · unfold insertVersionEntry at h
      rw [hr] at h
      split_ifs at h with h1 h2
      · cases h
        simp
    · obtain ⟨l2, b2⟩ := pr
      unfold insertVersionEntry at h
      rw [hr] at h
      split_ifs at h with h1 h2
      · cases h
        simp
      · cases h
        exact List.mem_cons_of_mem c (ih hr)

/-- Insertion into a sorted versions list keeps it sorted. -/
theorem insert_sorted {name v : String} {e : VersionEntry} (he : e.version = v) :
    ∀ {vs l : List VersionEntry} {b : Bool}, versionsSorted vs →
      insertVersionEntry name v e vs = .ok (l, b) → versionsSorted l := by
  intro vs
  induction vs with
  | nil =>
    intro l b _ h
    unfold insertVersionEntry at h
    cases h
    exact List.pairwise_singleton _ _
  | cons c rest ih =>
    intro l b hs h
    rcases hr : insertVersionEntry name v e rest with he' | pr
    · unfold insertVersionEntry at h
      rw [hr] at h
      split_ifs at h with h1 h2
      · cases h
        refine List.Pairwise.cons ?_ hs
        intro x hx
        have hec : vcLE e c := by
          unfold vcLE
          rw [he]
          exact vc_le_of_pos h2
        rcases List.mem_cons.mp hx with hx | hx
        · rw [hx]
          exact hec
        · exact vc_trans hec ((List.pairwise_cons.mp hs).1 x hx)
    · obtain ⟨l2, b2⟩ := pr
      unfold insertVersionEntry at h
      rw [hr] at h
      split_ifs at h with h1 h2
      · cases h
        refine List.Pairwise.cons ?_ hs
        intro x hx
        have hec : vcLE e c := by
          unfold vcLE
          rw [he]
          exact vc_le_of_pos h2
        rcases List.mem_cons.mp hx with hx | hx
        · rw [hx]
          exact hec
        · exact vc_trans hec ((List.pairwise_cons.mp hs).1 x hx)
      · cases h
        refine List.Pairwise.cons ?_ (ih (List.pairwise_cons.mp hs).2 hr)
        intro x hx
        rcases insert_mem hr x hx with hx' | hx'
        · rw [hx']
          unfold vcLE
          rw [he]
          exact vc_le_of_not_pos h2
        · exact (List.pairwise_cons.mp hs).1 x hx'

/-- Inserting a version string already present in a sorted list raises the
duplicate-version error. -/
theorem insert_dup {name v : String} {e : VersionEntry} :
    ∀ {vs : List VersionEntry}, versionsSorted vs →
      ∀ d ∈ vs, d.version = v →
      insertVersionEntry name v e vs =
        .error ("Duplicate version detected for component " ++ name ++ ": " ++ v) := by
  intro vs
  induction vs with
  | nil =>
    intro _ d hd
    simp at hd
  | cons c rest ih =>
    intro hs d hd hdv
    by_cases hc : c.version = v
    · unfold insertVersionEntry
      rw [if_pos hc]
    · have hdrest : d ∈ rest := by
        rcases List.mem_cons.mp hd with hx | hx
        · exact absurd (hx ▸ hdv) hc
        · exact hx
      have hle : versionCompare c.version v <= 0 := by
        have hcd := (List.pairwise_cons.mp hs).1 d hdrest
        unfold vcLE at hcd
        rw [hdv] at hcd
        exact hcd
      unfold insertVersionEntry
      rw [if_neg hc, if_neg (by omega)]
      rw [ih (List.pairwise_cons.mp hs).2 d hdrest hdv]

/-- alookup finds only stored pairs. -/
theorem alookup_mem {α : Type} {k : String} {v : α} :
    ∀ {l : List (String × α)}, alookup k l = some v → (k, v) ∈ l := by
  intro l
  induction l with
  | nil =>
    intro h
    simp [alookup] at h
  | cons p rest ih =>
    intro h
    unfold alookup at h
    split_ifs at h with hk
    · cases h
      rw [← hk]
      exact List.mem_cons_self p rest
    · exact List.mem_cons_of_mem p (ih h)

/-- Members of an association-list update are old pairs or the new pair. -/
theorem aupdate_mem {α : Type} {k : String} {v : α} :
    ∀ {l : List (String × α)} {p : String × α},
      p ∈ aupdate k v l → p ∈ l ∨ p = (k, v) := by
  intro l
  induction l with
  | nil =>
    intro p h
    simp [aupdate] at h
    exact Or.inr h
  | cons q rest ih =>
    intro p h
    unfold aupdate at h
    split_ifs at h with hk
    · rcases List.mem_cons.mp h with hx | hx
      · exact Or.inr (by rw [hx, hk])
      · exact Or.inl (List.mem_cons_of_mem q hx)
    · rcases List.mem_cons.mp h with hx | hx
      · exact Or.inl (by rw [hx]; exact List.mem_cons_self q rest)
      · rcases ih hx with hy | hy
        · exact Or.inl (List.mem_cons_of_mem q hy)
        · exact Or.inr hy

/-- parsePageId of the literal spec "index.adoc" falls back to the context for
all three coordinates. -/
theorem parsePageId_index (ctx : Ctx) :
    parsePageId "index.adoc" ctx =
      some { component := ctx.component, version := ctx.version, module := ctx.module,
             family := "page", relative := "index.adoc" } := by
  unfold parsePageId
  rw [show splitVersion "index.adoc" = none from by decide]
  rw [show parseRest "index.adoc" = some (none, none, "index") from by decide]
  dsimp only [Option.map]
  rw [show ("index" ++ ".adoc" : String) = "index.adoc" from by decide]
  simp

/-- The catalog invariant maintained by sequences of addComponentVersion
calls: every component's versions list is sorted and non-empty. -/
def ComponentsInv (cat : Catalog) : Prop :=
  ∀ p ∈ cat.components, versionsSorted p.2.versions ∧ p.2.versions ≠ []

/-- resolvePage of index.adoc in a catalog without files resolves to no
file. -/
theorem resolvePage_empty {cat : Catalog} (hfiles : cat.files = [])
    (hinv : ComponentsInv cat) (n v : String) :
    cat.resolvePage "index.adoc"
      { component := some n, version := some v, module := some "ROOT" } = .ok none := by
  unfold Catalog.resolvePage
  rw [parsePageId_index]
  dsimp only
  by_cases hv : strFalsy (some v) = true
  · rw [if_pos hv]
    rcases hc : cat.getComponentOpt (some n) with _ | comp
    · rfl
    · dsimp only
      have hmem : (n, comp) ∈ cat.components := by
        apply alookup_mem
        simpa [Catalog.getComponentOpt] using hc
      obtain ⟨_, hne⟩ := hinv _ hmem
      rcases hvs : comp.versions with _ | ⟨e0, rest⟩
      · exact absurd hvs hne
      · rw [show comp.latestVersion = some e0 from by
          unfold Component.latestVersion
          rw [hvs]
          rfl]
        unfold Catalog.getById
        rw [hfiles]
        rfl
  · rw [if_neg hv]
    unfold Catalog.getById
    rw [hfiles]
    rfl

/-- insertComponentVersion never changes the files map. -/
theorem insertComponentVersion_files {cat cat2 : Catalog} {n v t u : String}
    (h : cat.insertComponentVersion n v t u = .ok cat2) : cat2.files = cat.files := by
  unfold Catalog.insertComponentVersion at h
  rcases hlk : alookup n cat.components with _ | comp
  · rw [hlk] at h
    cases h
    rfl
  · rw [hlk] at h
    dsimp only at h
    rcases hins : insertVersionEntry n v { title := t, version := v, url := u }
        comp.versions with e | pr
    · rw [hins] at h
      cases h
    · obtain ⟨versions2, atFront⟩ := pr
      rw [hins] at h
      cases h
      rfl

/-- addComponentVersion never changes the files map. -/
theorem addComponentVersion_files {cat cat2 : Catalog} {n v t : String} {s : Option String}
    (h : cat.addComponentVersion n v t s = .ok cat2) : cat2.files = cat.files := by
  unfold Catalog.addComponentVersion at h
  rcases hu : cat.startPageUrl n v s with e | url
  · rw [hu] at h
    cases h
  · rw [hu] at h
    exact insertComponentVersion_files h

/-- insertComponentVersion preserves the catalog invariant. -/
theorem insertComponentVersion_inv {cat cat2 : Catalog} {n v t u : String}
    (hinv : ComponentsInv cat) (h : cat.insertComponentVersion n v t u = .ok cat2) :
    ComponentsInv cat2 := by
  unfold Catalog.insertComponentVersion at h
  rcases hlk : alookup n cat.components with _ | comp
  · rw [hlk] at h
    cases h
    intro p hp
    rcases List.mem_append.mp hp with hx | hx
    · exact hinv p hx
    · simp at hx
      rw [hx]
      exact ⟨List.pairwise_singleton _ _, by simp⟩
  · rw [hlk] at h
    dsimp only at h
    rcases hins : insertVersionEntry n v { title := t, version := v, url := u }
        comp.versions with e | pr
    · rw [hins] at h
      cases h
    · obtain ⟨versions2, atFront⟩ := pr
      rw [hins] at h
      cases h
      intro p hp
      rcases aupdate_mem hp with hx | hx
      · exact hinv p hx
      · have hcm : (n, comp) ∈ cat.components := alookup_mem hlk
        obtain ⟨hsorted, _⟩ := hinv _ hcm
        have hs2 : versionsSorted versions2 :=
          insert_sorted (show ({ title := t, version := v, url := u } : VersionEntry).version = v
            from rfl) hsorted hins
        have hne2 : versions2 ≠ [] := List.ne_nil_of_mem (insert_mem_self hins)
        rw [hx]
        rcases atFront with _ | _ <;> exact ⟨hs2, hne2⟩

/-- addComponentVersion preserves the catalog invariant. -/
theorem addComponentVersion_inv {cat cat2 : Catalog} {n v t : String} {s : Option String}
    (hinv : ComponentsInv cat) (h : cat.addComponentVersion n v t s = .ok cat2) :
    ComponentsInv cat2 := by
  unfold Catalog.addComponentVersion at h
  rcases hu : cat.startPageUrl n v s with e | url
  · rw [hu] at h
    cases h
  · rw [hu] at h
    exact insertComponentVersion_inv hinv h

/-- startPageUrl succeeds without an explicit spec when the catalog has no
files. -/
theorem startPageUrl_empty {cat : Catalog} (hfiles : cat.files = [])
    (hinv : ComponentsInv cat) (n v : String) :
    ∃ url, cat.startPageUrl n v none = .ok url := by
  unfold Catalog.startPageUrl
  dsimp only
  rw [show (if strFalsy (none : Option String) = true then "index.adoc"
      else (none : Option String).getD "index.adoc") = "index.adoc" from rfl]
  rw [resolvePage_empty hfiles hinv n v]
  dsimp only
  rw [if_neg (by decide)]
  obtain ⟨p, hp⟩ := computePub_some
    (expandPageSrc { component := n, version := v, module := "ROOT", relative := "index.adoc" })
    (computeOut
      (expandPageSrc { component := n, version := v, module := "ROOT", relative := "index.adoc" })
      (expandPageSrc
        { component := n, version := v, module := "ROOT", relative := "index.adoc" }).family
      cat.htmlUrlExtensionStyle)
    (expandPageSrc
      { component := n, version := v, module := "ROOT", relative := "index.adoc" }).family
    cat.htmlUrlExtensionStyle
  rw [hp]
  exact ⟨p.url, rfl⟩

/-- Adding a version string already present for a component fails with the
duplicate-version error (catalogs without files). -/
theorem addComponentVersion_dup {cat : Catalog} {n v t : String} {comp : Component}
    (hfiles : cat.files = []) (hinv : ComponentsInv cat)
    (hlk : alookup n cat.components = some comp) {d : VersionEntry}
    (hd : d ∈ comp.versions) (hdv : d.version = v) :
    cat.addComponentVersion n v t none =
      .error ("Duplicate version detected for component " ++ n ++ ": " ++ v) := by
  obtain ⟨url, hu⟩ := startPageUrl_empty hfiles hinv n v
  unfold Catalog.addComponentVersion
  rw [hu]
  unfold Catalog.insertComponentVersion
  rw [hlk]
  dsimp only
  have hsorted := (hinv _ (alookup_mem hlk)).1
  rw [insert_dup hsorted d hd hdv]

/-- One addComponentVersion call. -/
structure AddOp where
  name : String
  version : String
  title : String
  startPage : Option String := none
deriving Repr, DecidableEq

/-- A sequence of addComponentVersion calls against a catalog. -/
def runAddsFrom (cat : Catalog) : List AddOp → Except String Catalog
  | [] => .ok cat
  | op :: rest =>
    match cat.addComponentVersion op.name op.version op.title op.startPage with
    | .ok cat2 => runAddsFrom cat2 rest
    | .error e => .error e

/-- A sequence of addComponentVersion calls from a fresh catalog. -/
def runAdds (playbook : Playbook) (ops : List AddOp) : Except String Catalog :=
  runAddsFrom (Catalog.init playbook) ops

/-- The invariant carried along a sequence of addComponentVersion calls. -/
theorem runAddsFrom_inv : ∀ {ops : List AddOp} {cat cat2 : Catalog},
    cat.files = [] ∧ ComponentsInv cat → runAddsFrom cat ops = .ok cat2 →
    cat2.files = [] ∧ ComponentsInv cat2 := by
  intro ops
  induction ops with
  | nil =>
    intro cat cat2 hinv h
    unfold runAddsFrom at h
    cases h
    exact hinv
  | cons op rest ih =>
    intro cat cat2 hinv h
    unfold runAddsFrom at h
    rcases hstep : cat.addComponentVersion op.name op.version op.title op.startPage with e | cat3
    · rw [hstep] at h
      cases h
    · rw [hstep] at h
      refine ih ⟨?_, addComponentVersion_inv hinv.2 hstep⟩ h
      rw [addComponentVersion_files hstep]
      exact hinv.1

/-- The docs version-ordering scenario. -/
def docsOps : List AddOp :=
  [{ name := "docs", version := "1.0", title := "Docs" },
   { name := "docs", version := "2.0", title := "Docs" },
   { name := "docs", version := "1.5", title := "Docs" },
   { name := "docs", version := "3.0", title := "Docs" }]

/-- The catalog produced by the docs scenario. -/
def docsCat5 : Catalog :=
  match runAdds {} docsOps with
  | .ok cat => cat
  | .error _ => Catalog.init {}

/-- The docs component produced by the docs scenario. -/
def docsComponent5 : Component :=
  { name := "docs", title := "Docs", url := "/docs/3.0/index.html",
    versions :=
      [{ title := "Docs", version := "3.0", url := "/docs/3.0/index.html" },
       { title := "Docs", version := "2.0", url := "/docs/2.0/index.html" },
       { title := "Docs", version := "1.5", url := "/docs/1.5/index.html" },
       { title := "Docs", version := "1.0", url := "/docs/1.0/index.html" }]}

/-- C5: over every sequence of addComponentVersion calls from a fresh
catalog, each component's versions list stays sorted newest-to-oldest per
versionCompare and latestVersion is always versions[0]; adding a version
string already present for a component fails with the duplicate-version
error; and the concrete docs sequence 1.0, 2.0, 1.5, 3.0 yields versions
3.0, 2.0, 1.5, 1.0 with the component url equal to 3.0's start-page URL. -/
theorem claim_C5 :
    (∀ (playbook : Playbook) (ops : List AddOp) (cat : Catalog),
      runAdds playbook ops = .ok cat →
      ∀ p ∈ cat.components, versionsSorted p.2.versions ∧
        p.2.latestVersion = p.2.versions.head?) ∧
    (∀ (playbook : Playbook) (ops : List AddOp) (cat : Catalog) (n v t : String)
      (comp : Component),
      runAdds playbook ops = .ok cat → alookup n cat.components = some comp →
      v ∈ comp.versions.map VersionEntry.version →
      cat.addComponentVersion n v t none =
        .error ("Duplicate version detected for component " ++ n ++ ": " ++ v)) ∧
    (runAdds {} docsOps).map (fun cat => (alookup "docs" cat.components).map
        (fun comp => (comp.versions.map VersionEntry.version, comp.url))) =
      .ok (some (["3.0", "2.0", "1.5", "1.0"], "/docs/3.0/index.html")) := by
  have hinit : ∀ playbook : Playbook,
      (Catalog.init playbook).files = [] ∧ ComponentsInv (Catalog.init playbook) := by
    intro playbook
    refine ⟨rfl, ?_⟩
    intro p hp
    rw [show (Catalog.init playbook).components = [] from rfl] at hp
    simp at hp
  refine ⟨?_, ?_, ?_⟩
  · intro playbook ops cat h p hp
    obtain ⟨_, hinv⟩ := runAddsFrom_inv (hinit playbook) h
    exact ⟨(hinv p hp).1, rfl⟩
  · intro playbook ops cat n v t comp h hlk hv
    obtain ⟨hfiles, hinv⟩ := runAddsFrom_inv (hinit playbook) h
    obtain ⟨d, hd, hdv⟩ := List.mem_map.mp hv
    exact addComponentVersion_dup hfiles hinv hlk hd hdv
  · rfl

/-- Witness for C5 at the docs scenario: the resulting versions list is
sorted with latestVersion at the head, and re-adding version 2.0 fails. -/
theorem claim_C5_witness :
    (versionsSorted docsComponent5.versions ∧
      docsComponent5.latestVersion = docsComponent5.versions.head?) ∧
    docsCat5.addComponentVersion "docs" "2.0" "Docs" none =
      .error "Duplicate version detected for component docs: 2.0" := by
  constructor
  · exact claim_C5.1 {} docsOps docsCat5 rfl ("docs", docsComponent5) (by decide)
  · exact claim_C5.2.1 {} docsOps docsCat5 "docs" "2.0" "Docs" docsComponent5 rfl (by decide)
      (by decide)

/-! ## The classifier invariant and the site start page (claim C2) -/

/-- Replacing src keeps the other file fields. -/
theorem File.src_withSrc (f : File) (s : Src) : (f.withSrc s).src = s := by
  cases f
  rfl

/-- Replacing src keeps rel. -/
theorem File.rel_withSrc (f : File) (s : Src) : (f.withSrc s).rel = f.rel := by
  cases f
  rfl

/-- Setting the navigation index keeps src. -/
theorem File.src_withNav (f : File) (i : Nat) : (f.withNav i).src = f.src := by
  cases f
  rfl

/-- Setting the navigation index keeps rel. -/
theorem File.rel_withNav (f : File) (i : Nat) : (f.withNav i).rel = f.rel := by
  cases f
  rfl

/-- parsePageId always produces a page-family id. -/
theorem parsePageId_family {spec : String} {ctx : Ctx} {id : SrcId}
    (h : parsePageId spec ctx = some id) : id.family = "page" := by
  unfold parsePageId at h
  rcases hsv : splitVersion spec with _ | vr
  · rw [hsv] at h
    dsimp only at h
    rcases hpr : parseRest spec with _ | q
    · rw [hpr] at h
      cases h
    · rw [hpr] at h
      obtain ⟨c0, m0, page⟩ := q
      rcases c0 with _ | c <;> cases h <;> rfl
  · obtain ⟨v, rest⟩ := vr
    rw [hsv] at h
    dsimp only at h
    rcases hpr : parseRest rest with _ | q
    · rw [hpr] at h
      dsimp only at h
      rcases hpr2 : parseRest spec with _ | q2
      · rw [hpr2] at h
        cases h
      · rw [hpr2] at h
        obtain ⟨c0, m0, page⟩ := q2
        rcases c0 with _ | c <;> cases h <;> rfl
    · rw [hpr] at h
      obtain ⟨c0, m0, page⟩ := q
      rcases c0 with _ | c <;> cases h <;> rfl

/-- Keys split uniquely at the first occurrence of a separator absent from
both prefixes. -/
theorem sep_split_inj {sep : Char} : ∀ {xs xs2 ys ys2 : List Char}, sep ∉ xs → sep ∉ xs2 →
    xs ++ sep :: ys = xs2 ++ sep :: ys2 → xs = xs2 ∧ ys = ys2 := by
  intro xs
  induction xs with
  | nil =>
    intro xs2 ys ys2 _ h2 heq
    cases xs2 with
    | nil => simpa using heq
    | cons x xs2 =>
      rw [List.nil_append, List.cons_append] at heq
      have hx := (List.cons.injEq _ _ _ _).mp heq
      exact absurd (hx.1 ▸ List.mem_cons_self x xs2) h2
  | cons x xs ih =>
    intro xs2 ys ys2 h1 h2 heq
    cases xs2 with
    | nil =>
      rw [List.cons_append, List.nil_append] at heq
      have hx := (List.cons.injEq _ _ _ _).mp heq
      exact absurd (hx.1.symm ▸ List.mem_cons_self x xs) h1
    | cons y xs2 =>
      rw [List.cons_append, List.cons_append] at heq
      have hx := (List.cons.injEq _ _ _ _).mp heq
      have hrest := ih (fun hm => h1 (List.mem_cons_of_mem x hm))
        (fun hm => h2 (List.mem_cons_of_mem y hm)) hx.2
      exact ⟨by rw [hx.1, hrest.1], hrest.2⟩

/-- Equal identity keys built from slash-free families share the family. -/
theorem generateId_family_inj {f1 f2 v1 v2 c1 c2 m1 m2 r1 r2 : String}
    (h1 : '/' ∉ f1.data) (h2 : '/' ∉ f2.data)
    (heq : generateId f1 v1 c1 m1 r1 = generateId f2 v2 c2 m2 r2) : f1 = f2 := by
  have hd := congrArg String.data heq
  simp only [generateId, String.data_append, List.append_assoc, List.cons_append,
    List.nil_append] at hd
  have hx := (List.cons.injEq _ _ _ _).mp hd
  have := sep_split_inj h1 h2 hx.2
  cases f1
  cases f2
  exact congrArg String.mk this.1

/-- The file families assigned by the classifier and the start-page
registration. -/
def allowedFams : List String :=
  ["navigation", "partial", "page", "image", "attachment", "example", "alias"]

/-- Classifier-assigned families never contain a slash. -/
theorem allowedFams_no_slash {f : String} (h : f ∈ allowedFams) : '/' ∉ f.data := by
  simp only [allowedFams, List.mem_cons, List.not_mem_nil, or_false] at h
  rcases h with rfl | rfl | rfl | rfl | rfl | rfl | rfl <;> decide

/-- The invariant of catalogs built by the classifier: every stored file sits
under its identity key, carries a classifier family, and an alias always
dereferences to a page-family file. -/
def FilesInv (cat : Catalog) : Prop :=
  ∀ p ∈ cat.files, p.1 = p.2.src.idOf ∧ p.2.src.family ∈ allowedFams ∧
    (p.2.src.family = "alias" → ∃ g, p.2.rel = some g ∧ g.src.family = "page")

/-- Under the invariant, getById only finds files of the queried family. -/
theorem FilesInv_getById {cat : Catalog} (hinv : FilesInv cat) {q : SrcId} {f : File}
    (h : cat.getById q = some f) (hq : '/' ∉ q.family.data) : f.src.family = q.family := by
  obtain ⟨hkey, hfam, _⟩ := hinv _ (alookup_mem h)
  exact generateId_family_inj (allowedFams_no_slash hfam) hq hkey.symm

/-- The shape of a successful addFile: the file is appended under its identity
key with only out and pub possibly filled in. -/
theorem addFile_shape {cat cat2 : Catalog} {f : File} (h : cat.addFile f = .ok cat2) :
    ∃ stored : File, cat2.files = cat.files ++ [(f.src.idOf, stored)] ∧
      stored.src = f.src ∧ stored.rel = f.rel := by
  simp only [Catalog.addFile] at h
  rcases hlk : alookup f.src.idOf cat.files with _ | g
  · rw [hlk] at h
    rcases hact : f.actingFamily with _ | af
    · rw [hact] at h
      cases h
    · rw [hact] at h
      dsimp only at h
      rcases hout : f.out with _ | o
      · rw [hout] at h
        dsimp only at h
        by_cases hP : (af = "page" ∨ af = "image" ∨ af = "attachment") ∧
            ¬ containsSub ['/', '_'] ("/" ++ f.src.relative).data = true
        · rw [if_pos hP] at h
          dsimp only at h
          rw [File.pub_withOut, File.src_withOut, File.out_withOut] at h
          by_cases hc : f.pub = none ∧ ((true : Bool) = true ∨ af = "navigation")
          · rw [if_pos hc] at h
            rcases hp : computePub f.src (some (computeOut f.src af cat.htmlUrlExtensionStyle))
                af cat.htmlUrlExtensionStyle with _ | p
            · rw [hp] at h
              cases h
            · rw [hp] at h
              cases h
              exact ⟨_, rfl, by rw [File.src_withPub, File.src_withOut],
                by rw [File.rel_withPub, File.rel_withOut]⟩
          · rw [if_neg hc] at h
            cases h
            exact ⟨_, rfl, File.src_withOut f _, File.rel_withOut f _⟩
        · rw [if_neg hP] at h
          dsimp only at h
          by_cases hc : f.pub = none ∧ ((false : Bool) = true ∨ af = "navigation")
          · rw [if_pos hc] at h
            rcases hp : computePub f.src f.out af cat.htmlUrlExtensionStyle with _ | p
            · rw [hp] at h
              cases h
            · rw [hp] at h
              cases h
              exact ⟨_, rfl, File.src_withPub f _, File.rel_withPub f _⟩
          · rw [if_neg hc] at h
            cases h
            exact ⟨_, rfl, rfl, rfl⟩
      · rw [hout] at h
        dsimp only at h
        by_cases hc : f.pub = none ∧ ((true : Bool) = true ∨ af = "navigation")
        · rw [if_pos hc] at h
          rcases hp : computePub f.src f.out af cat.htmlUrlExtensionStyle with _ | p
          · rw [hp] at h
            cases h
          · rw [hp] at h
            cases h
            exact ⟨_, rfl, File.src_withPub f _, File.rel_withPub f _⟩
        · rw [if_neg hc] at h
          cases h
          exact ⟨_, rfl, rfl, rfl⟩
  · rw [hlk] at h
    cases h

/-- Under the invariant, resolvePage only resolves to page-family files. -/
theorem resolvePage_family {cat : Catalog} (hinv : FilesInv cat) {spec : String} {ctx : Ctx}
    {f : File} (h : cat.resolvePage spec ctx = .ok (some f)) : f.src.family = "page" := by
  unfold Catalog.resolvePage at h
  rcases hp : parsePageId spec ctx with _ | id0
  · rw [hp] at h
    dsimp only at h
    exact Except.noConfusion h
  · rw [hp] at h
    dsimp only at h
    have hfam := parsePageId_family hp
    by_cases hv : strFalsy id0.version = true
    · rw [if_pos hv] at h
      rcases hc : cat.getComponentOpt id0.component with _ | comp
      · rw [hc] at h
        dsimp only at h
        simp only [Except.ok.injEq] at h
        exact Option.noConfusion h
      · rw [hc] at h
        dsimp only at h
        rcases hl : comp.latestVersion with _ | latest
        · rw [hl] at h
          dsimp only at h
          exact Except.noConfusion h
        · rw [hl] at h
          dsimp only at h
          have h2 : cat.getById { id0 with version := some latest.version } = some f := by
            injection h
          have := FilesInv_getById hinv h2 (by
            rw [show ({ id0 with version := some latest.version } : SrcId).family
                = id0.family from rfl, hfam]
            decide)
          rw [this, hfam]
    · rw [if_neg hv] at h
      have h2 : cat.getById id0 = some f := by
        injection h
      have := FilesInv_getById hinv h2 (by rw [hfam]; decide)
      rw [this, hfam]

/-- addFile preserves the invariant for any file that carries a classifier
family and, when an alias, a page-family target. -/
theorem addFile_inv {cat cat2 : Catalog} {f : File} (hinv : FilesInv cat)
    (hfam : f.src.family ∈ allowedFams)
    (halias : f.src.family = "alias" → ∃ g, f.rel = some g ∧ g.src.family = "page")
    (h : cat.addFile f = .ok cat2) : FilesInv cat2 := by
  obtain ⟨stored, hfiles, hsrc, hrel⟩ := addFile_shape h
  intro p hp
  rw [hfiles] at hp
  rcases List.mem_append.mp hp with hx | hx
  · exact hinv p hx
  · simp only [List.mem_singleton] at hx
    rw [hx]
    refine ⟨by rw [hsrc], by rw [hsrc]; exact hfam, ?_⟩
    intro ha
    rw [hsrc] at ha
    obtain ⟨g, hg, hgf⟩ := halias ha
    exact ⟨g, by rw [hrel, hg], hgf⟩

/-- The component/version stamping step of allocateSrc keeps the family. -/
theorem finish_family (y : File) (c v : String) :
    ((y.withSrc { y.src with component := c, version := v }).src).family = y.src.family := by
  rw [File.src_withSrc]

/-- allocateSrc assigns only classifier families, never alias, and keeps
rel. -/
theorem allocateSrc_fam {f f2 : File} {comp ver : String} {nav : Option (List String)}
    (h : allocateSrc f comp ver nav = some f2) :
    f2.src.family ∈ allowedFams ∧ ¬ f2.src.family = "alias" ∧ f2.rel = f.rel := by
  unfold allocateSrc at h
  dsimp only at h
  split at h
  · split_ifs at h with h1 <;>
      (injection h with h2
       subst h2
       refine ⟨?_, ?_, ?_⟩
       · rw [finish_family, File.src_withSrc]
         dsimp only
         decide
       · rw [finish_family, File.src_withSrc]
         dsimp only
         decide
       · rw [File.rel_withSrc, File.rel_withSrc, File.rel_withNav])
  · split_ifs at h <;> first
      | exact Option.noConfusion h
      | (injection h with h2
         subst h2
         refine ⟨?_, ?_, ?_⟩
         · rw [finish_family, File.src_withSrc]
           dsimp only
           decide
         · rw [finish_family, File.src_withSrc]
           dsimp only
           decide
         · rw [File.rel_withSrc, File.rel_withSrc])

/-- addBundleFiles preserves the invariant: every stored file went through
allocateSrc, which never assigns the alias family. -/
theorem addBundleFiles_inv {comp ver : String} {nav : Option (List String)}
    (fs : List File) : ∀ {cat cat2 : Catalog}, FilesInv cat →
    cat.addBundleFiles comp ver nav fs = .ok cat2 → FilesInv cat2 := by
  induction fs with
  | nil =>
    intro cat cat2 hinv h
    injection h with h2
    rw [← h2]
    exact hinv
  | cons f fs ih =>
    intro cat cat2 hinv h
    unfold Catalog.addBundleFiles at h
    rcases ha : allocateSrc f comp ver nav with _ | f2
    · rw [ha] at h
      exact ih hinv h
    · rw [ha] at h
      dsimp only at h
      rcases hadd : cat.addFile f2 with e | cat3
      · rw [hadd] at h
        cases h
      · rw [hadd] at h
        obtain ⟨hfam, hnal, _⟩ := allocateSrc_fam ha
        exact ih (addFile_inv hinv hfam (fun hal => absurd hal hnal) hadd) h

/-- One classifier step preserves the invariant: addComponentVersion never
touches the files map. -/
theorem classifyStep_inv {cat cat2 : Catalog} {b : Bundle} (hinv : FilesInv cat)
    (h : classifyStep cat b = .ok cat2) : FilesInv cat2 := by
  unfold classifyStep at h
  rcases hb : cat.addBundleFiles b.name b.version b.nav b.files with e | cat3
  · rw [hb] at h
    cases h
  · rw [hb] at h
    have h3 := addBundleFiles_inv b.files hinv hb
    intro p hp
    rw [addComponentVersion_files h] at hp
    exact h3 p hp

/-- The classifier fold preserves the invariant. -/
theorem classifyFold_inv (bs : List Bundle) : ∀ {cat cat2 : Catalog}, FilesInv cat →
    classifyFold cat bs = .ok cat2 → FilesInv cat2 := by
  induction bs with
  | nil =>
    intro cat cat2 hinv h
    injection h with h2
    rw [← h2]
    exact hinv
  | cons b rest ih =>
    intro cat cat2 hinv h
    unfold classifyFold at h
    rcases hs : classifyStep cat b with e | cat3
    · rw [hs] at h
      cases h
    · rw [hs] at h
      exact ih (classifyStep_inv hinv hs) h

/-- registerSiteStartPage preserves the invariant: the stored alias points at
the resolved start page, which resolvePage guarantees to be a page. -/
theorem registerSiteStartPage_inv {playbook : Playbook} {cat cat2 : Catalog}
    (hinv : FilesInv cat) (h : registerSiteStartPage playbook cat = .ok cat2) :
    FilesInv cat2 := by
  unfold registerSiteStartPage at h
  split_ifs at h with h1
  · injection h with h2
    rw [← h2]
    exact hinv
  · rcases hr : cat.resolvePage ((playbook.site.startPage).getD "") {} with e | of
    · rw [hr] at h
      cases h
    · rw [hr] at h
      dsimp only at h
      rcases of with _ | rel
      · cases h
      · have hrelf : rel.src.family = "page" := resolvePage_family hinv hr
        refine addFile_inv hinv ?_ ?_ h
        · show ("alias" : String) ∈ allowedFams
          decide
        · intro _
          exact ⟨rel, rfl, hrelf⟩

/-- Catalogs built by classifyContent satisfy the invariant. -/
theorem classifyContent_inv {playbook : Playbook} {aggregate : List Bundle} {cat : Catalog}
    (h : classifyContent playbook aggregate = .ok cat) : FilesInv cat := by
  unfold classifyContent at h
  rcases hf : classifyFold (Catalog.init playbook) aggregate with e | cat1
  · rw [hf] at h
    cases h
  · rw [hf] at h
    exact registerSiteStartPage_inv
      (classifyFold_inv aggregate (fun p hp => absurd hp (List.not_mem_nil p)) hf) h

/-- C2: a catalog built by classifyContent never hands out an alias from
getSiteStartPage: when the stored start-page entry is an alias, the result is
its rel target, a page-family file. -/
theorem claim_C2 {playbook : Playbook} {aggregate : List Bundle} {cat : Catalog} {f : File}
    (hc : classifyContent playbook aggregate = .ok cat)
    (hs : cat.getSiteStartPage = some f) : ¬ f.src.family = "alias" := by
  have hinv := classifyContent_inv hc
  unfold Catalog.getSiteStartPage at hs
  rcases h1 : cat.getById START_PAGE_ID with _ | p
  · rw [h1] at hs
    dsimp only at hs
    rcases h2 : cat.getById { START_PAGE_ID with family := "alias" } with _ | q
    · rw [h2] at hs
      cases hs
    · rw [h2] at hs
      dsimp only at hs
      have hq : q.src.family = "alias" := FilesInv_getById hinv h2 (by decide)
      rw [if_pos hq] at hs
      obtain ⟨hkey, hfams, hal⟩ := hinv _ (alookup_mem h2)
      obtain ⟨g, hg, hgf⟩ := hal hq
      rw [hg] at hs
      injection hs with hs2
      rw [← hs2, hgf]
      decide
  · rw [h1] at hs
    dsimp only at hs
    have hp : p.src.family = "page" := FilesInv_getById hinv h1 (by decide)
    rw [if_neg (by rw [hp]; decide)] at hs
    injection hs with hs2
    rw [← hs2, hp]
    decide

/-- A raw asciidoc file under modules/ROOT/pages, as handed to the
classifier by the aggregator. -/
def c2IntroRaw : File :=
  File.mk (some "modules/ROOT/pages/intro.adoc") (some "text/asciidoc")
    { basename := "intro.adoc", stem := "intro", extname := ".adoc",
      mediaType := "text/asciidoc" }
    none none none none

/-- A playbook whose site start page is the docs intro page. -/
def c2Playbook : Playbook :=
  { site := { startPage := some "2.0@docs::intro" } }

/-- A one-bundle aggregate carrying the intro page. -/
def c2Bundle : Bundle :=
  { name := "docs", version := "2.0", title := "Docs", files := [c2IntroRaw] }

/-- The catalog classified from the one-bundle aggregate. -/
def c2Cat : Catalog :=
  match classifyContent c2Playbook [c2Bundle] with
  | .ok cat => cat
  | .error _ => Catalog.init c2Playbook

/-- The site start page of the classified catalog. -/
def c2StartFile : File :=
  match c2Cat.getSiteStartPage with
  | some f => f
  | none => c2IntroRaw

theorem claim_C2_witness : ¬ c2StartFile.src.family = "alias" :=
  @claim_C2 c2Playbook [c2Bundle] c2Cat c2StartFile rfl rfl

/-- The ordering the spec asserts for the aggregate: ascending by name, and
within a name descending by version per the VersionCompare contract. -/
def specAggSortedDesc : List CVRecord → Bool
  | [] => true
  | [_] => true
  | a :: b :: rest =>
    (strLtB a.name b.name || (a.name = b.name && versionCompare a.version b.version ≤ 0)) &&
      specAggSortedDesc (b :: rest)

/-- Two records of the same component with ascending versions. -/
def c1A : CVRecord := { name := "docs", version := "1.0" }

/-- The newer of the two records. -/
def c1B : CVRecord := { name := "docs", version := "2.0" }

/-- A one-source, one-url aggregate input carrying both records. -/
def c1Input : List (List (List CVRecord)) := [[[c1A, c1B]]]

/-- C1 counterexample: buildAggregate sorts versions as plain ascending
strings, so the docs aggregate comes out 1.0 before 2.0 — not in the
descending VersionCompare order the spec asserts. -/
theorem claim_C1_counterexample :
    (buildAggregate c1Input).map CVRecord.version = ["1.0", "2.0"] ∧
    specAggSortedDesc (buildAggregate c1Input) = false :=
  ⟨rfl, rfl⟩

/-- mergeScalars keeps the key of its right operand, so a fold's key is the
key of some element of the group. -/
theorem key_foldl_mergeScalars : ∀ (l : List CVRecord) (acc : CVRecord), l ≠ [] →
    ∃ b ∈ l, CVRecord.key (l.foldl mergeScalars acc) = CVRecord.key b
  | [], _, h => absurd rfl h
  | [x], _, _ => ⟨x, List.mem_cons_self x [], rfl⟩
  | x :: y :: t, acc, _ => by
    obtain ⟨b, hb, he⟩ := key_foldl_mergeScalars (y :: t) (mergeScalars acc x) (by simp)
    exact ⟨b, List.mem_cons_of_mem x hb, he⟩

/-- The merged record of a nonempty single-key group keeps the key. -/
theorem mergeGroup_key {k : String} (grp : List CVRecord) (hne : grp ≠ [])
    (hall : ∀ b ∈ grp, CVRecord.key b = k) : CVRecord.key (mergeGroup grp) = k := by
  obtain ⟨b, hb, he⟩ := key_foldl_mergeScalars grp emptyCV hne
  calc CVRecord.key (mergeGroup grp) = CVRecord.key (grp.foldl mergeScalars emptyCV) := rfl
    _ = CVRecord.key b := he
    _ = k := hall b hb

/-- Every key produced by dedupKeys comes from the input or the seed. -/
theorem dedupKeys_mem : ∀ {l acc : List String} {k : String}, k ∈ dedupKeys l acc →
    k ∈ l ∨ k ∈ acc
  | [], acc, k, h => by
    simp only [dedupKeys] at h
    exact Or.inr (List.mem_reverse.mp h)
  | x :: rest, acc, k, h => by
    simp only [dedupKeys] at h
    split_ifs at h with h1
    · rcases dedupKeys_mem h with h2 | h2
      · exact Or.inl (List.mem_cons_of_mem x h2)
      · exact Or.inr h2
    · rcases dedupKeys_mem h with h2 | h2
      · exact Or.inl (List.mem_cons_of_mem x h2)
      · rcases List.mem_cons.mp h2 with h3 | h3
        · exact Or.inl (h3 ▸ List.mem_cons_self x rest)
        · exact Or.inr h3

/-- insertCV permutes the inserted element into the list. -/
theorem insertCV_perm (a : CVRecord) : ∀ (l : List CVRecord), (insertCV a l).Perm (a :: l)
  | [] => List.Perm.refl _
  | b :: t => by
    rw [insertCV]
    split_ifs with hab
    · exact List.Perm.refl _
    · exact ((insertCV_perm a t).cons b).trans (List.Perm.swap a b t)

/-- sortCV permutes its input. -/
theorem sortCV_perm : ∀ (l : List CVRecord), (sortCV l).Perm l
  | [] => List.Perm.refl _
  | a :: t => by
    rw [sortCV]
    exact (insertCV_perm a (sortCV t)).trans ((sortCV_perm t).cons a)

/-- The lodash sortBy comparison is transitive. -/
theorem aggLE_trans (a b c : CVRecord) (h1 : aggLE a b = true) (h2 : aggLE b c = true) :
    aggLE a c = true := by
  simp only [aggLE, Bool.or_eq_true, Bool.and_eq_true, decide_eq_true_eq,
    Bool.not_eq_true'] at h1 h2 ⊢
  rcases h1 with h1 | ⟨hn1, hv1⟩
  · rcases h2 with h2 | ⟨hn2, _⟩
    · exact Or.inl (strLtB_trans h1 h2)
    · exact Or.inl (by rw [← hn2]; exact h1)
  · rcases h2 with h2 | ⟨hn2, hv2⟩
    · exact Or.inl (by rw [hn1]; exact h2)
    · refine Or.inr ⟨hn1.trans hn2, ?_⟩
      rcases h3 : strLtB c.version a.version with _ | _
      · rfl
      · rcases h4 : strLtB b.version c.version with _ | _
        · have hbc := strLtB_conn h4 hv2
          rw [← hbc] at h3
          rw [h3] at hv1
          cases hv1
        · have hba := strLtB_trans h4 h3
          rw [hba] at hv1
          cases hv1

/-- The lodash sortBy comparison is total. -/
theorem aggLE_total (a b : CVRecord) : (aggLE a b || aggLE b a) = true := by
  simp only [aggLE, Bool.or_eq_true, Bool.and_eq_true, decide_eq_true_eq,
    Bool.not_eq_true']
  rcases h1 : strLtB a.name b.name with _ | _
  · rcases h2 : strLtB b.name a.name with _ | _
    · have hn := strLtB_conn h1 h2
      rcases h3 : strLtB b.version a.version with _ | _
      · exact Or.inl (Or.inr ⟨hn, rfl⟩)
      · refine Or.inr (Or.inr ⟨hn.symm, ?_⟩)
        rcases h4 : strLtB a.version b.version with _ | _
        · rfl
        · exact absurd (strLtB_trans h4 h3) (by rw [strLtB_irrefl]; simp)
    · exact Or.inr (Or.inl rfl)
  · exact Or.inl (Or.inl rfl)

/-- Inserting into a sorted list keeps it sorted. -/
theorem insertCV_sorted {a : CVRecord} : ∀ {l : List CVRecord},
    List.Pairwise (fun x y => aggLE x y = true) l →
    List.Pairwise (fun x y => aggLE x y = true) (insertCV a l)
  | [], _ => List.pairwise_singleton _ a
  | b :: t, h => by
    rw [insertCV]
    split_ifs with hab
    · refine List.Pairwise.cons ?_ h
      intro y hy
      rcases List.mem_cons.mp hy with rfl | hy2
      · exact hab
      · exact aggLE_trans a b y hab ((List.pairwise_cons.mp h).1 y hy2)
    · have hba : aggLE b a = true := by
        have htot := aggLE_total a b
        rw [Bool.or_eq_true] at htot
        rcases htot with h1 | h1
        · exact absurd h1 hab
        · exact h1
      have hc := List.pairwise_cons.mp h
      refine List.Pairwise.cons ?_ (insertCV_sorted hc.2)
      intro y hy
      have hy2 := (insertCV_perm a t).mem_iff.mp hy
      rcases List.mem_cons.mp hy2 with rfl | hy3
      · exact hba
      · exact hc.1 y hy3

/-- sortCV sorts. -/
theorem sortCV_sorted : ∀ (l : List CVRecord),
    List.Pairwise (fun x y => aggLE x y = true) (sortCV l)
  | [] => List.Pairwise.nil
  | a :: t => by
    rw [sortCV]
    exact insertCV_sorted (sortCV_sorted t)

/-- C1 (amended): the aggregate is sorted by the lodash sortBy order
(name ascending, then version as a plain ascending string), and every record
of it is the merge — scalars last-write-wins, files concatenated in flattened
source order — of the records sharing its `version@name` key. -/
theorem claim_C1 (cvs : List (List (List CVRecord))) :
    List.Pairwise (fun a b => aggLE a b = true) (buildAggregate cvs) ∧
    ∀ r ∈ buildAggregate cvs,
      r = mergeGroup (((cvs.map List.flatten).flatten).filter
        (fun x => CVRecord.key x = CVRecord.key r)) := by
  constructor
  · unfold buildAggregate
    dsimp only
    exact sortCV_sorted _
  · intro r hr
    unfold buildAggregate at hr
    dsimp only at hr
    have hr2 := (sortCV_perm _).mem_iff.mp hr
    obtain ⟨k, hk, hkr⟩ := List.mem_map.mp hr2
    have hkflat : k ∈ ((cvs.map List.flatten).flatten).map CVRecord.key := by
      rcases dedupKeys_mem hk with h | h
      · exact h
      · exact absurd h (List.not_mem_nil k)
    obtain ⟨x, hx, hxk⟩ := List.mem_map.mp hkflat
    have hxf : x ∈ ((cvs.map List.flatten).flatten).filter
        (fun y => CVRecord.key y = k) :=
      List.mem_filter.mpr ⟨hx, by simp [hxk]⟩
    have hall : ∀ b ∈ ((cvs.map List.flatten).flatten).filter
        (fun y => CVRecord.key y = k), CVRecord.key b = k := by
      intro b hb
      exact of_decide_eq_true (List.mem_filter.mp hb).2
    have hkey : CVRecord.key r = k := by
      rw [← hkr]
      exact mergeGroup_key _ (List.ne_nil_of_mem hxf) hall
    rw [hkey]
    exact hkr.symm

/-- Witness for the amended C1 on the concrete docs aggregate: the 2.0 record
of the output equals the merge of its key group. -/
theorem claim_C1_witness :
    mergeGroup [c1B] ∈ buildAggregate c1Input ∧
    mergeGroup [c1B] = mergeGroup ((([[ [c1A, c1B] ]].map List.flatten).flatten).filter
      (fun x => CVRecord.key x = CVRecord.key (mergeGroup [c1B]))) :=
  ⟨by decide, (claim_C1 c1Input).2 (mergeGroup [c1B]) (by decide)⟩

end Antora